import Mathlib

/-!
Verification development for the annotation lifecycle engine of the
`code-snippet-tracker` VSCode extension (`src/index.ts`).

The engine's text processing is embedded shallowly: document text is a
`List Char`, JavaScript regular-expression replacements are modelled as
executable scanning functions validated against the semantics of the
concrete patterns appearing in the source, and JavaScript `Math.round` /
`Math.min` / `Math.max` arithmetic on numbers is modelled over `ℚ`.
All percentages flowing through the engine are integer-valued, so `ℚ`
arithmetic is exact where the source's floating point is.

Scanning functions whose position can jump forward are written with an
explicit fuel argument equal to the input length (every scanning step
consumes at least one character, so the fuel never runs out on the
intended calls); this keeps them structurally recursive and hence
evaluable by the kernel.
-/

unseal Rat.add Rat.mul Rat.inv Rat.sub

namespace SnippetTracker

/-- Document text and line fragments are lists of characters. -/
abbrev Str := List Char

/-- Shorthand for writing character-list literals. -/
def str (s : String) : Str := s.toList

/-- JavaScript `\s` on the ASCII range (the only characters our inputs use):
space, tab, line feed, carriage return, vertical tab, form feed. -/
def ws (c : Char) : Bool :=
  c = ' ' || c = '\t' || c = '\n' || c = '\r' || c = '\x0b' || c = '\x0c'

/-- Decimal digit test, JavaScript `\d`. -/
def isDigitCh (c : Char) : Bool := '0' ≤ c && c ≤ '9'

/-- `[a-f0-9]`, the character class of the marker id token. -/
def hexDigit (c : Char) : Bool := ('a' ≤ c && c ≤ 'f') || isDigitCh c

/-- `text.split('\n')`: split into lines at each line feed (the separators are
removed; a trailing line feed yields a trailing empty line, and splitting the
empty string yields one empty line, as in JavaScript). -/
def splitLines : Str → List Str
  | [] => [[]]
  | c :: cs =>
    if c = '\n' then [] :: splitLines cs
    else
      match splitLines cs with
      | [] => [[c]]
      | l :: ls => (c :: l) :: ls

/-- `lines.join('\n')`. -/
def joinLines : List Str → Str
  | [] => []
  | [l] => l
  | l :: ls => l ++ ['\n'] ++ joinLines ls

/-- Does `pat` occur at the start of `l`? -/
def startsWithStr : Str → Str → Bool
  | [], _ => true
  | _ :: _, [] => false
  | p :: ps, c :: cs => p = c && startsWithStr ps cs

/-- Index of the first occurrence of `pat` as a contiguous substring of `l`. -/
def findSub (pat : Str) : Str → Option Nat
  | [] => if startsWithStr pat [] then some 0 else none
  | c :: cs =>
    if startsWithStr pat (c :: cs) then some 0
    else (findSub pat cs).map (· + 1)

/-- `l.includes(pat)` on strings. -/
def containsSub (pat l : Str) : Bool := (findSub pat l).isSome

/-- `code.replace(/\/\/.*$/gm, '')`: on each line, delete everything from the
first `//` to the end of the line. -/
def removeLineComments (code : Str) : Str :=
  joinLines ((splitLines code).map (fun l =>
    match findSub ['/', '/'] l with
    | none => l
    | some i => l.take i))

/-- Fueled scan of `code.replace(/\/\*[\s\S]*?\*\//g, '')`: delete from the
first `/*` through the next `*/` after it and resume after the deletion; a
`/*` with no later `*/` matches nothing (and then no later opener can match
either, since any closer after a later opener would also close this one). -/
def removeBlockCommentsF : Nat → Str → Str
  | 0, l => l
  | fuel + 1, l =>
    match findSub ['/', '*'] l with
    | none => l
    | some i =>
      match findSub ['*', '/'] (l.drop (i + 2)) with
      | none => l
      | some k => l.take i ++ removeBlockCommentsF fuel (l.drop (i + 2 + k + 2))

/-- `code.replace(/\/\*[\s\S]*?\*\//g, '')`. -/
def removeBlockComments (l : Str) : Str := removeBlockCommentsF l.length l

/-- Largest index of a line feed in `l`. -/
def lastNl : Str → Option Nat
  | [] => none
  | c :: cs =>
    match lastNl cs with
    | some i => some (i + 1)
    | none => if c = '\n' then some 0 else none

/-- Is the last character of `l` a line feed? (`false` on the empty string.) -/
def endsWithNl (l : Str) : Bool := l.getLastD 'x' = '\n'

/-- Fueled scan of `code.replace(/^\s+|\s+$/gm, '')` (multiline global
replace). `atStart` records whether the current position is the start of the
string or immediately after a line feed. At a position where multiline `^`
holds and a whitespace character follows, the first alternative `^\s+`
greedily deletes the maximal whitespace run. Otherwise, at a whitespace
character the second alternative `\s+$` deletes the longest whitespace run
prefix whose end is the end of the string or sits immediately before a line
feed (greedy `\s+`, then backtracking so that multiline `$` matches); if no
such run end exists the character is kept and scanning advances one
position. This operational model was validated against the regular
expression's replacement semantics on exhaustive small inputs. -/
def trimEdgesF : Nat → Bool → Str → Str
  | 0, _, l => l
  | _ + 1, _, [] => []
  | fuel + 1, atStart, c :: cs =>
    if ws c then
      let run := (c :: cs).takeWhile ws
      let rest := (c :: cs).dropWhile ws
      if atStart then
        trimEdgesF fuel (endsWithNl run) rest
      else if rest = [] then
        []
      else
        match lastNl run.tail with
        | some t =>
          trimEdgesF fuel (endsWithNl (run.take (t + 1))) (run.drop (t + 1) ++ rest)
        | none => c :: trimEdgesF fuel (decide (c = '\n')) cs
    else
      c :: trimEdgesF fuel (decide (c = '\n')) cs

/-- `code.replace(/^\s+|\s+$/gm, '')`. -/
def trimEdges (l : Str) : Str := trimEdgesF l.length true l

/-- Fueled scan of `code.replace(/\n\s*\n/g, '\n')`: at each line feed,
greedily extend `\s*` through the following whitespace run and match a final
line feed as late as possible; the whole match is replaced by a single line
feed and scanning resumes after it. -/
def collapseBlankF : Nat → Str → Str
  | 0, l => l
  | _ + 1, [] => []
  | fuel + 1, c :: cs =>
    if c = '\n' then
      match lastNl (cs.takeWhile ws) with
      | some t => '\n' :: collapseBlankF fuel ((cs.takeWhile ws).drop (t + 1) ++ cs.dropWhile ws)
      | none => c :: collapseBlankF fuel cs
    else
      c :: collapseBlankF fuel cs

/-- `code.replace(/\n\s*\n/g, '\n')`. -/
def collapseBlank (l : Str) : Str := collapseBlankF l.length l

/-- JavaScript `String.prototype.trim()`. -/
def jsTrim (l : Str) : Str :=
  ((l.dropWhile ws).reverse.dropWhile ws).reverse

/-- `cleanCodeForComparison` (src/index.ts:363-373): strip `//` comments,
strip `/* */` comments, apply the multiline edge-trim replace, collapse
blank-line seams, and trim the result. -/
def cleanCodeForComparison (code : Str) : Str :=
  jsTrim (collapseBlank (trimEdges (removeBlockComments (removeLineComments code))))

example : cleanCodeForComparison (str "a\nb") = str "a\nb" := by decide
example : cleanCodeForComparison (str "a\n\nb") = str "ab" := by decide
example : cleanCodeForComparison (str "a\n// c\nb") = str "ab" := by decide
example : cleanCodeForComparison (str "a\n \nb") = str "a\nb" := by decide
example : cleanCodeForComparison (str "  a  \nb\t") = str "a\nb" := by decide
example : cleanCodeForComparison (str "a // hi\nb") = str "a\nb" := by decide
example : cleanCodeForComparison (str "a\n/* x\ny */\nb") = str "ab" := by decide

/-! ## Marker patterns

`AI_GENERATED_RE = /\/\/ #region @ai_generated(?:\s+id:([a-f0-9]{6}))?/`
`AI_MODIFIED_RE  = /\/\/ #region @ai_modified\((\d+%\))(?:\s+id:([a-f0-9]{6}))?/`
`AI_REGION_END   = /\/\/ #endregion/`

`exec` of an unanchored pattern matches at the leftmost position where the
whole pattern matches.  For these patterns that is the first occurrence of
the literal part (the optional id group never blocks a match); the optional
group `(?:\s+id:([a-f0-9]{6}))?` captures an id exactly when a nonempty
whitespace run followed by `id:` and six `[a-f0-9]` characters starts right
after the literal part (a whitespace character can never begin `id:`, so
only the maximal whitespace run is a candidate).  The modified pattern's
first capture group is the digit run together with the trailing `%)`, and
`Number.parseInt` of that string reads just the leading digit run, so the
model captures the digit run directly. -/

/-- Try a position-level matcher at every position, leftmost first
(the empty suffix included), as `RegExp.exec` does. -/
def firstMatch {α : Type} (m : Str → Option α) : Str → Option α
  | [] => m []
  | c :: cs =>
    match m (c :: cs) with
    | some a => some a
    | none => firstMatch m cs

/-- The optional `(?:\s+id:([a-f0-9]{6}))?` group, tried at one position:
returns the captured id when the group matches here. -/
def matchIdPart (l : Str) : Option Str :=
  if (l.takeWhile ws) = [] then none
  else
    let rest := l.dropWhile ws
    if startsWithStr (str "id:") rest then
      let hex := (rest.drop 3).take 6
      if hex.length = 6 && hex.all hexDigit then some hex else none
    else none

/-- `AI_GENERATED_RE` tried at one position: `some ids` when the pattern
matches here, where `ids` is the optional captured id. -/
def genAt (l : Str) : Option (Option Str) :=
  if startsWithStr (str "// #region @ai_generated") l then
    some (matchIdPart (l.drop (str "// #region @ai_generated").length))
  else none

/-- `AI_GENERATED_RE.exec(line)`, as the capture results. -/
def execGen (line : Str) : Option (Option Str) := firstMatch genAt line

/-- `AI_MODIFIED_RE` tried at one position: `some (p, ids)` when the pattern
matches here, where `p` is the declared percentage (the value
`Number.parseInt` reads off the first capture group) and `ids` the optional
captured id. -/
def modAt (l : Str) : Option (Nat × Option Str) :=
  if startsWithStr (str "// #region @ai_modified(") l then
    let rest := l.drop (str "// #region @ai_modified(").length
    let digits := rest.takeWhile isDigitCh
    if digits = [] then none
    else
      let rest2 := rest.dropWhile isDigitCh
      if startsWithStr (str "%)") rest2 then
        some (digits.foldl (fun n c => n * 10 + (c.toNat - 48)) 0,
              matchIdPart (rest2.drop 2))
      else none
  else none

/-- `AI_MODIFIED_RE.exec(line)`, as the capture results. -/
def execMod (line : Str) : Option (Nat × Option Str) := firstMatch modAt line

/-- `AI_REGION_END.test(line)`. -/
def testEnd (line : Str) : Bool := containsSub (str "// #endregion") line

example : execGen (str "// #region @ai_generated") = some none := by decide
example : execGen (str "// #region @ai_generated id:abc123") = some (some (str "abc123")) := by decide
example : execGen (str "// #region @ai_generated id:ABC123") = some none := by decide
example : execMod (str "  // #region @ai_modified(25%) id:abc123")
    = some (25, some (str "abc123")) := by decide
example : execMod (str "// #region @ai_modified(0%)") = some (0, none) := by decide
example : execMod (str "// #region @ai_generated") = none := by decide
example : testEnd (str "  // #endregion") = true := by decide

/-! ## The region parser -/

/-- `BlockInfo` (src/index.ts:15-22).  `modifiedPercent` is `none` for a
generated block (`undefined` in the source); `endLine` is set when the block
is closed. -/
structure BlockInfo where
  id : Str
  content : Str
  isGenerated : Bool
  modifiedPercent : Option Nat
  startLine : Nat
  endLine : Nat
  deriving DecidableEq, Repr

/-- `content.replace(/\n$/, '')`: drop one trailing line feed. -/
def stripTrailingNl (l : Str) : Str :=
  if endsWithNl l then l.dropLast else l

/-- `generateShortId` (src/index.ts:107-109) returns six lowercase hex
characters drawn from `crypto.randomBytes`, i.e. from an entropy source
outside the program text.  The embedding threads the entropy through
explicitly as a stream of prepared tokens: each call pops the next one. -/
def generateShortId (fresh : List Str) : Str × List Str :=
  (fresh.headD (str "000000"), fresh.tail)

/-- The scanning loop of `extractAllCodeBlocks` (src/index.ts:128-180):
process the lines in order, pushing a `BlockInfo` on the stack at a start
marker (a line matching the generated pattern counts as generated even if it
also matches the modified pattern, per the source's `isGenerated = !!genMatch`),
popping and finalizing at an end marker (ignored when the stack is empty),
and appending any other line to the body of the innermost open block. -/
def extractGo (fresh : List Str) (stack : List BlockInfo) (acc : List BlockInfo)
    (i : Nat) : List Str → List BlockInfo
  | [] => acc
  | line :: rest =>
    match execGen line with
    | some gid =>
      extractGo fresh
        ({ id := gid.getD [], content := [], isGenerated := true,
           modifiedPercent := none, startLine := i, endLine := 0 } :: stack)
        acc (i + 1) rest
    | none =>
      match execMod line with
      | some (p, mid) =>
        extractGo fresh
          ({ id := mid.getD [], content := [], isGenerated := false,
             modifiedPercent := some p, startLine := i, endLine := 0 } :: stack)
          acc (i + 1) rest
      | none =>
        if testEnd line then
          match stack with
          | [] => extractGo fresh [] acc (i + 1) rest
          | top :: stackRest =>
            let (newId, fresh') :=
              if top.id = [] then generateShortId fresh else (top.id, fresh)
            let fin := { top with content := stripTrailingNl top.content, id := newId, endLine := i }
            extractGo fresh' stackRest (acc ++ [fin]) (i + 1) rest
        else
          match stack with
          | [] => extractGo fresh [] acc (i + 1) rest
          | top :: stackRest =>
            extractGo fresh ({ top with content := top.content ++ line ++ ['\n'] } :: stackRest)
              acc (i + 1) rest

/-- `extractAllCodeBlocks` on a pre-split line list. -/
def extractBlocksFromLines (lines : List Str) (fresh : List Str) : List BlockInfo :=
  extractGo fresh [] [] 0 lines

/-- `extractAllCodeBlocks` (src/index.ts:128-180), with the entropy stream
for `generateShortId` passed explicitly. -/
def extractAllCodeBlocks (text : Str) (fresh : List Str) : List BlockInfo :=
  extractBlocksFromLines (splitLines text) fresh

example :
    extractBlocksFromLines
      [str "// #region @ai_generated id:abc123", str "x", str "// #endregion"] []
    = [{ id := str "abc123", content := str "x", isGenerated := true,
         modifiedPercent := none, startLine := 0, endLine := 2 }] := by decide

/-! ## Decision engine and cumulative aggregation -/

/-- JavaScript `Math.round`: round half toward positive infinity. -/
def jsRound (x : ℚ) : ℤ := ⌊x + 1 / 2⌋

/-- The action type returned by `getActionType` (src/index.ts:338). -/
inductive ActionType where
  | remove
  | modify
  | ensure_id
  | none
  deriving DecidableEq, Repr

/-- `getActionType` (src/index.ts:338-351). -/
def getActionType (isGenerated : Bool) (percent : ℚ) : ActionType :=
  if isGenerated then
    if percent ≥ 70 then .remove
    else if percent ≥ 10 then .modify
    else .ensure_id
  else
    if percent ≥ 70 then .remove
    else if percent > 0 then .modify
    else .none

/-- `calculateCumulativeModification` (src/index.ts:354-360):
`Math.min(100, Math.round(previousPercent + (100 - previousPercent) * currentChangePercent / 100))`. -/
def calculateCumulativeModification (previousPercent currentChangePercent : ℚ) : ℚ :=
  min 100 (jsRound (previousPercent + (100 - previousPercent) * currentChangePercent / 100) : ℚ)

example : calculateCumulativeModification 40 50 = 70 := by
  norm_num [calculateCumulativeModification, jsRound]
example : calculateCumulativeModification 25 0 = 25 := by
  norm_num [calculateCumulativeModification, jsRound]

/-! ## The LineDiffer collaborator -/

/-- Kind of a diff hunk, as reported by the LineDiffer. -/
inductive HunkKind where
  | added
  | removed
  | unchanged
  deriving DecidableEq, Repr

/-- One merged diff hunk: its kind and its text. -/
abbrev Hunk := HunkKind × Str

/-- Modelled from the spec: the LineDiffer collaborator (`diff.diffLines` of
the external `diff` npm package) tokenizes each text into lines that keep
their trailing line feed. -/
def tokenizeLines : Str → List Str
  | [] => []
  | c :: cs =>
    if c = '\n' then [c] :: tokenizeLines cs
    else
      match tokenizeLines cs with
      | [] => [[c]]
      | t :: ts => (c :: t) :: ts

/-- Modelled from the spec: a longest common subsequence of two token lists
(the LineDiffer is "a line-oriented, LCS-style diff").  Fueled so that the
kernel can evaluate it; with fuel at least the summed length it computes a
longest common subsequence. -/
def lcsF : Nat → List Str → List Str → List Str
  | 0, _, _ => []
  | _ + 1, [], _ => []
  | _ + 1, _, [] => []
  | fuel + 1, a :: as, b :: bs =>
    if a = b then a :: lcsF fuel as bs
    else
      let l1 := lcsF fuel (a :: as) bs
      let l2 := lcsF fuel as (b :: bs)
      if l1.length ≥ l2.length then l1 else l2

/-- Modelled from the spec: LCS of two token lists. -/
def lcs (os ns : List Str) : List Str :=
  lcsF (os.length + ns.length) os ns

/-- Modelled from the spec: turn old tokens, new tokens and their common
subsequence into an edit script, removed runs reported before added runs. -/
def scriptOf (os ns : List Str) : List Str → List Hunk
  | [] => os.map (fun v => (.removed, v)) ++ ns.map (fun v => (.added, v))
  | c :: cs =>
    (os.takeWhile (· ≠ c)).map (fun v => (HunkKind.removed, v)) ++
      (ns.takeWhile (· ≠ c)).map (fun v => (HunkKind.added, v)) ++
      [(.unchanged, c)] ++
      scriptOf (os.dropWhile (· ≠ c)).tail (ns.dropWhile (· ≠ c)).tail cs

/-- Modelled from the spec: adjacent hunks of the same kind are merged into
one change object whose value is the concatenated text. -/
def mergeRuns : List Hunk → List Hunk
  | [] => []
  | (k, v) :: rest =>
    match mergeRuns rest with
    | [] => [(k, v)]
    | (k', v') :: out =>
      if k = k' then (k, v ++ v') :: out else (k, v) :: (k', v') :: out

/-- Modelled from the spec: the LineDiffer collaborator contract
`LineDiffer.diffLines(oldText, newText) -> ordered list of
{text, kind ∈ added|removed|unchanged}` (§6), an LCS-style line diff with
per-kind run merging; the estimator consumes only the per-kind line counts
of its hunks.  This implementation stands in for the external `diff` npm
package, which is not part of this repository. -/
def diffLines (oldText newText : Str) : List Hunk :=
  mergeRuns (scriptOf (tokenizeLines oldText) (tokenizeLines newText)
    (lcs (tokenizeLines oldText) (tokenizeLines newText)))

example : diffLines (str "a\nb") (str "c")
    = [(.removed, str "a\nb"), (.added, str "c")] := by decide
example : diffLines (str "a\nb\nc") (str "a\nx\nc")
    = [(.unchanged, str "a\n"), (.removed, str "b\n"), (.added, str "x\n"),
       (.unchanged, str "c")] := by decide

/-! ## The modification estimator -/

/-- `part.value.split('\n').length`, the per-hunk line count the source
computes (one more than the number of line feeds in the hunk text). -/
def lineCountJS (v : Str) : Nat := (splitLines v).length

/-- One step of the hunk classification loop (src/index.ts:394-407): add the
hunk's line count to the component of its kind in the running
`(addedLines, removedLines, unchangedLines)` triple. -/
def countStep (acc : Nat × Nat × Nat) (h : Hunk) : Nat × Nat × Nat :=
  match h.1 with
  | .added => (acc.1 + lineCountJS h.2, acc.2.1, acc.2.2)
  | .removed => (acc.1, acc.2.1 + lineCountJS h.2, acc.2.2)
  | .unchanged => (acc.1, acc.2.1, acc.2.2 + lineCountJS h.2)

/-- Summed `(addedLines, removedLines, unchangedLines)` of a hunk list
(src/index.ts:390-407). -/
def countHunkLines (hunks : List Hunk) : Nat × Nat × Nat :=
  hunks.foldl countStep (0, 0, 0)

/-- `calculateModificationPercentage` (src/index.ts:376-417), parametrized by
the LineDiffer so that theorems can quantify over the collaborator: clean
both texts; equal canonical forms yield 0 and an empty canonical original
yields 100, both without consulting the differ; otherwise classify the
differ's hunks into added/removed/unchanged line counts, return 100 when
`unchanged + removed = 0`, and otherwise clamp and round
`(added + removed) / (2 * (unchanged + removed)) * 100`. -/
def calculateModificationPercentageWith (differ : Str → Str → List Hunk)
    (originalContent currentContent : Str) : ℚ :=
  let cleanOriginal := cleanCodeForComparison originalContent
  let cleanCurrent := cleanCodeForComparison currentContent
  if cleanOriginal = cleanCurrent then 0
  else if cleanOriginal = [] then 100
  else
    let counts := countHunkLines (differ cleanOriginal cleanCurrent)
    let totalOriginalLines := counts.2.1 + counts.2.2
    if totalOriginalLines = 0 then 100
    else
      let changeRatio : ℚ := (counts.1 + counts.2.1) / (2 * totalOriginalLines)
      min 100 (max 0 (jsRound (changeRatio * 100) : ℚ))

/-- `calculateModificationPercentage` (src/index.ts:376-417), with the
LineDiffer instantiated to the modelled `diffLines`. -/
def calculateModificationPercentage (originalContent currentContent : Str) : ℚ :=
  calculateModificationPercentageWith diffLines originalContent currentContent

example : calculateModificationPercentage (str "a") (str "b") = 100 := by decide
example : calculateModificationPercentage (str "x=1\ny=2") (str "z=9") = 75 := by decide
example : calculateModificationPercentage (str "x=1\ny=2") (str "p=3\nq=4") = 100 := by decide
example : calculateModificationPercentage (str "a\nb") (str "a\n// c\nb") = 75 := by decide
example : calculateModificationPercentage (str "a") (str "a // hi") = 0 := by decide

/-! ## The processing pass (`processDocument`, src/index.ts:183-335) -/

/-- The per-file snapshot map `blockId ↦ content` held in
`lastBlockSnapshots[filePath]`, as an association list in key insertion
order (JavaScript object semantics: assignment to an existing key keeps its
position, assignment to a fresh key appends, `delete` removes). -/
abbrev Snaps := List (Str × Str)

/-- `snaps[k]` as an option. -/
def lookupSnap (snaps : Snaps) (k : Str) : Option Str :=
  match snaps with
  | [] => none
  | (k', v) :: rest => if k' = k then some v else lookupSnap rest k

/-- `snaps[k] = v`. -/
def insertSnap (snaps : Snaps) (k v : Str) : Snaps :=
  match snaps with
  | [] => [(k, v)]
  | (k', v') :: rest => if k' = k then (k, v) :: rest else (k', v') :: insertSnap rest k v

/-- `delete snaps[k]`. -/
def eraseSnap (snaps : Snaps) (k : Str) : Snaps :=
  match snaps with
  | [] => []
  | (k', v') :: rest => if k' = k then rest else (k', v') :: eraseSnap rest k

/-- One entry of `processDocument`'s `blocksToUpdate` list
(src/index.ts:187-195). -/
structure BlockUpd where
  startLine : Nat
  endLine : Nat
  id : Str
  content : Str
  isGenerated : Bool
  modificationPercent : ℚ
  previousModificationPercent : ℚ
  deriving DecidableEq, Repr

/-- One entry of `processDocument`'s scanning stack (src/index.ts:203-209). -/
structure StackBlock where
  startLine : Nat
  id : Str
  isGenerated : Bool
  previousModificationPercent : ℚ
  content : Str
  deriving DecidableEq, Repr

/-- The modification percentage `processDocument` computes for a popped
block (src/index.ts:244-259): a generated block uses the raw change
percentage against its snapshot, a modified block the cumulative formula; a
missing snapshot entry, and also a present but empty one (the source's
`if (lastBlockSnapshots[filePath][finalId])` is JavaScript truthiness, and
the empty string is falsy), yields 0. -/
def snapshotPercent (snaps : Snaps) (finalId : Str) (top : StackBlock) : ℚ :=
  match lookupSnap snaps finalId with
  | some lastContent =>
    if lastContent = [] then 0
    else if top.isGenerated then
      calculateModificationPercentage lastContent top.content
    else
      calculateCumulativeModification top.previousModificationPercent
        (calculateModificationPercentage lastContent top.content)
  | none => 0

/-- The scanning loop of `processDocument` (src/index.ts:211-280): walk the
lines keeping a stack of open blocks; at an end marker pop the innermost
block, give it a fresh id if its marker carried none, compute its
modification percentage against the (mutating) snapshot map, record the
block and store its current content in the snapshot map.  Returns the
recorded blocks in pop order together with the updated snapshot map. -/
def processScanGo (fresh : List Str) (stack : List StackBlock) (acc : List BlockUpd)
    (snaps : Snaps) (i : Nat) : List Str → List BlockUpd × Snaps
  | [] => (acc, snaps)
  | line :: rest =>
    match execGen line with
    | some gid =>
      processScanGo fresh
        ({ startLine := i, id := gid.getD [], isGenerated := true,
           previousModificationPercent := 0, content := [] } :: stack)
        acc snaps (i + 1) rest
    | none =>
      match execMod line with
      | some (p, mid) =>
        processScanGo fresh
          ({ startLine := i, id := mid.getD [], isGenerated := false,
             previousModificationPercent := (p : ℚ), content := [] } :: stack)
          acc snaps (i + 1) rest
      | none =>
        if testEnd line then
          match stack with
          | [] => processScanGo fresh [] acc snaps (i + 1) rest
          | top :: stackRest =>
            let (finalId, fresh') :=
              if top.id = [] then generateShortId fresh else (top.id, fresh)
            let rec' : BlockUpd :=
              { startLine := top.startLine, endLine := i, id := finalId,
                content := top.content, isGenerated := top.isGenerated,
                modificationPercent := snapshotPercent snaps finalId top,
                previousModificationPercent := top.previousModificationPercent }
            processScanGo fresh' stackRest (acc ++ [rec'])
              (insertSnap snaps finalId top.content) (i + 1) rest
        else
          match stack with
          | [] => processScanGo fresh [] acc snaps (i + 1) rest
          | top :: stackRest =>
            processScanGo fresh ({ top with content := top.content ++ line ++ ['\n'] } :: stackRest)
              acc snaps (i + 1) rest

/-- The scan phase of a processing pass on a document text. -/
def scanBlocks (text : Str) (snaps : Snaps) (fresh : List Str) : List BlockUpd × Snaps :=
  processScanGo fresh [] [] snaps 0 (splitLines text)

/-- Insert into a list sorted by descending `startLine`. -/
def insertDesc (b : BlockUpd) : List BlockUpd → List BlockUpd
  | [] => [b]
  | x :: xs => if x.startLine ≤ b.startLine then b :: x :: xs else x :: insertDesc b xs

/-- `blocksToUpdate.sort((a, b) => b.startLine - a.startLine)`
(src/index.ts:290); start lines of recorded blocks are pairwise distinct, so
any correct sort produces this descending order. -/
def sortByStartDesc (l : List BlockUpd) : List BlockUpd := l.foldr insertDesc []

/-- Decimal digits of a natural number (the characters JavaScript template
interpolation produces for a nonnegative integer); fueled for kernel
evaluation, with fuel `n + 1` always sufficient. -/
def natDigitsF : Nat → Nat → Str
  | 0, _ => []
  | fuel + 1, n =>
    if n < 10 then [Char.ofNat (48 + n)]
    else natDigitsF fuel (n / 10) ++ [Char.ofNat (48 + n % 10)]

/-- Decimal digit string of `n`. -/
def natDigits (n : Nat) : Str := natDigitsF (n + 1) n

/-- `Number.parseInt` on a digit string. -/
def parseDigits (l : Str) : Nat := l.foldl (fun n c => n * 10 + (c.toNat - 48)) 0

/-- A single-line text edit of the workspace edit
(`vscode.Range(a, 0, b, 0)` spans the lines `[a, b)` with their line
breaks). -/
inductive Edit where
  | delete (fromLine toLine : Nat)
  | replace (fromLine toLine : Nat) (text : Str)
  deriving DecidableEq, Repr

/-- The start-marker line written by a retag
(src/index.ts:312): original leading whitespace, the modified marker with
the rounded percentage, and the id. -/
def modifiedMarkerLine (leadingSpaces : Str) (percent : ℚ) (id : Str) : Str :=
  leadingSpaces ++ str "// #region @ai_modified(" ++ natDigits (jsRound percent).toNat
    ++ str "%) id:" ++ id ++ ['\n']

/-- The start-marker line written by ensure-id (src/index.ts:321). -/
def generatedMarkerLine (leadingSpaces : Str) (id : Str) : Str :=
  leadingSpaces ++ str "// #region @ai_generated id:" ++ id ++ ['\n']

/-- The body of the edit-planning loop (src/index.ts:292-326) for one block:
decide the action from the block's kind and computed percentage and extend
the edit list; `remove` deletes both marker lines and the block's snapshot
entry, `modify` rewrites the start line to the modified marker, `ensure_id`
rewrites the start line to the generated marker only when the current start
line lacks `id:`, and `none` does nothing.  The original leading whitespace
of the start line is preserved.  (`Math.round(modificationPercent)` is
printed via `Nat` digits; every percentage reaching this point is
nonnegative.) -/
def planBlock (lines : List Str) (st : List Edit × Snaps) (block : BlockUpd) :
    List Edit × Snaps :=
  let leadingSpaces := (lines.getD block.startLine []).takeWhile ws
  match getActionType block.isGenerated block.modificationPercent with
  | .remove =>
    (st.1 ++ [.delete block.startLine (block.startLine + 1),
              .delete block.endLine (block.endLine + 1)],
     eraseSnap st.2 block.id)
  | .modify =>
    (st.1 ++ [.replace block.startLine (block.startLine + 1)
        (modifiedMarkerLine leadingSpaces block.modificationPercent block.id)], st.2)
  | .ensure_id =>
    if containsSub (str "id:") (lines.getD block.startLine []) then st
    else
      (st.1 ++ [.replace block.startLine (block.startLine + 1)
          (generatedMarkerLine leadingSpaces block.id)], st.2)
  | .none => st

/-- Everything a processing pass produces: the sorted update records, the
planned edits, the final snapshot map, and whether the engine went on to
save the document. -/
structure ProcResult where
  blocksToUpdate : List BlockUpd
  edits : List Edit
  snaps : Snaps
  saved : Bool
  deriving DecidableEq, Repr

/-- `processDocument` (src/index.ts:183-335): scan the document against the
snapshot map, and if any block was recorded, plan edits over the blocks in
strictly descending start-line order (deleting stripped blocks' snapshot
entries while planning); the attempted `applyEdit` is modelled by the
`editSuccess` parameter, which the source consults only to decide whether to
save the document afterwards — the snapshot map has already been mutated by
the scan and the planning by the time the edit is applied. -/
def processDocument (text : Str) (snaps : Snaps) (fresh : List Str)
    (editSuccess : Bool) : ProcResult :=
  let lines := splitLines text
  let scanned := processScanGo fresh [] [] snaps 0 lines
  if scanned.1 = [] then
    { blocksToUpdate := [], edits := [], snaps := scanned.2, saved := false }
  else
    let sorted := sortByStartDesc scanned.1
    let planned := sorted.foldl (planBlock lines) ([], scanned.2)
    { blocksToUpdate := sorted, edits := planned.1, snaps := planned.2,
      saved := editSuccess }

/-- The per-block decisions of a pass: each recorded block, in planning
order, paired with the action `getActionType` chooses for it. -/
def passDecisions (text : Str) (snaps : Snaps) (fresh : List Str) :
    List (BlockUpd × ActionType) :=
  (sortByStartDesc (scanBlocks text snaps fresh).1).map
    (fun b => (b, getActionType b.isGenerated b.modificationPercent))

/-- The cumulative percentage of one region after a sequence of processing
passes whose single-comparison change percentages are `cs`, starting from
recorded percentage `p₀`: each pass feeds the previous recorded value
through `calculateCumulativeModification` (the engine writes the result
into the marker, and the next pass parses it back unchanged, since the
result is an integer). -/
def recordedAfter (p₀ : ℤ) (cs : List ℤ) : ℚ :=
  cs.foldl (fun (a : ℚ) (c : ℤ) => calculateCumulativeModification a (c : ℚ)) (p₀ : ℚ)

/-- A document line that matches none of the three marker patterns. -/
def plainLine (l : Str) : Prop :=
  execGen l = none ∧ execMod l = none ∧ testEnd l = false

instance (l : Str) : Decidable (plainLine l) := by
  unfold plainLine
  infer_instance

/-- The line-count triple `(added, removed, unchanged)` named by the spec's
estimator formula, for the hunks the differ reports on one comparison. -/
def diffCounts (differ : Str → Str → List Hunk) (originalContent currentContent : Str) :
    Nat × Nat × Nat :=
  countHunkLines
    (differ (cleanCodeForComparison originalContent) (cleanCodeForComparison currentContent))

/-! ## Concrete documents used by counterexamples and witnesses -/

/-- A generated region whose body was fully rewritten since the snapshot. -/
def stripDoc : Str := str "// #region @ai_generated id:abc123\nb\n// #endregion"

/-- Snapshot map recording the original body of `stripDoc`'s region. -/
def stripSnaps : Snaps := [(str "abc123", str "a")]

/-- A modified region whose body equals its snapshot (no human edit). -/
def idleDoc : Str := str "// #region @ai_modified(25%) id:abc123\nx\n// #endregion"

/-- Snapshot map matching `idleDoc`'s region body. -/
def idleSnaps : Snaps := [(str "abc123", str "x\n")]

/-- A generated region whose body equals its snapshot (no human edit). -/
def genIdleDoc : Str := str "// #region @ai_generated id:abc123\nx\n// #endregion"

/-- Snapshot map matching `genIdleDoc`'s region body. -/
def genIdleSnaps : Snaps := [(str "abc123", str "x\n")]

/-- A modified region with a positive declared percentage and an empty
body, equal to its stored (empty) snapshot. -/
def emptyModDoc : Str := str "// #region @ai_modified(25%) id:abc123\n// #endregion"

/-- Snapshot map recording the empty body of `emptyModDoc`'s region. -/
def emptyModSnaps : Snaps := [(str "abc123", [])]

/-- The generated start marker of the nesting example (no id). -/
def genMarkerEx : Str := str "// #region @ai_generated"

/-- The nested modified start marker of the nesting example. -/
def modMarkerEx : Str := str "// #region @ai_modified(20%) id:abc123"

/-- An end marker line. -/
def endMarkerEx : Str := str "// #endregion"

/-- A generated start marker carrying the id `X`. -/
def genMarkerWithId (X : Str) : Str := str "// #region @ai_generated id:" ++ X

/-- The body lines of open regions joined, each line with its line feed, as
the scanners accumulate them. -/
def flatJoin : List Str → Str
  | [] => []
  | l :: ls => l ++ ['\n'] ++ flatJoin ls

end SnippetTracker

namespace SnippetTracker

/-! # Theorems

## Arithmetic helpers -/

theorem jsRound_intCast (n : ℤ) : jsRound (n : ℚ) = n := by
  rw [jsRound, Int.floor_int_add]
  norm_num

theorem jsRound_le {x : ℚ} (n : ℤ) (h : x ≤ (n : ℚ)) : jsRound x ≤ n := by
  have h1 : jsRound x ≤ jsRound (n : ℚ) := Int.floor_le_floor (by linarith)
  rwa [jsRound_intCast] at h1

theorem le_jsRound {x : ℚ} (n : ℤ) (h : (n : ℚ) ≤ x) : n ≤ jsRound x := by
  rw [jsRound]
  exact Int.le_floor.mpr (by linarith)

theorem jsRound_nonneg {x : ℚ} (h : 0 ≤ x) : 0 ≤ jsRound x :=
  le_jsRound 0 (by exact_mod_cast h)

/-- Feeding a change percentage of 0 into the cumulative formula returns the
previous integer percentage clamped to 100. -/
theorem cumulative_zero_change (n : ℕ) :
    calculateCumulativeModification (n : ℚ) 0 = min 100 (n : ℚ) := by
  have h : (n : ℚ) + (100 - n) * 0 / 100 = ((n : ℤ) : ℚ) := by push_cast; ring
  rw [calculateCumulativeModification, h, jsRound_intCast]
  norm_cast

/-- One cumulative step at integer inputs in range produces an integer in
range, at least the previous value. -/
theorem cumulative_step (p c : ℤ) (hp0 : 0 ≤ p) (hp1 : p ≤ 100) (hc0 : 0 ≤ c)
    (hc1 : c ≤ 100) :
    ∃ k : ℤ, calculateCumulativeModification p c = (k : ℚ) ∧ p ≤ k ∧ k ≤ 100 := by
  refine ⟨min 100 (jsRound ((p : ℚ) + (100 - p) * c / 100)), ?_, ?_, min_le_left _ _⟩
  · rw [calculateCumulativeModification, Int.cast_min]
    norm_num
  · have hx : (p : ℚ) ≤ (p : ℚ) + (100 - p) * c / 100 := by
      have hp1' : (p : ℚ) ≤ 100 := by exact_mod_cast hp1
      have hc0' : (0 : ℚ) ≤ (c : ℚ) := by exact_mod_cast hc0
      have h1 : (0 : ℚ) ≤ (100 - (p : ℚ)) * c / 100 := by
        apply div_nonneg _ (by norm_num)
        exact mul_nonneg (by linarith) hc0'
      linarith
    exact le_min hp1 (le_jsRound p hx)

/-! ## C1 -/

/-- C1: `getActionType` realizes exactly the claimed decision table: a
Generated region is stripped at cumulative percentage ≥ 70, retagged
Modified at [10, 70), and only id-ensured below 10; a Modified region is
stripped at ≥ 70, retagged at (0, 70), and left alone at 0; in particular
the boundary values 70, 69 and 9 behave as claimed.  The strip boundary is
the constant 70, which coincides with the manifest's declared default of
`modificationThreshold`. -/
theorem c1_decision_table :
    ∀ p : ℚ,
      (70 ≤ p → getActionType true p = .remove) ∧
      (10 ≤ p → p < 70 → getActionType true p = .modify) ∧
      (p < 10 → getActionType true p = .ensure_id) ∧
      (70 ≤ p → getActionType false p = .remove) ∧
      (0 < p → p < 70 → getActionType false p = .modify) ∧
      (p = 0 → getActionType false p = .none) ∧
      getActionType true 70 = .remove ∧
      getActionType true 69 = .modify ∧
      getActionType true 9 = .ensure_id := by
  intro p
  have ht : ∀ q : ℚ, getActionType true q
      = if q ≥ 70 then .remove else if q ≥ 10 then .modify else .ensure_id := by
    intro q; simp [getActionType]
  have hf : ∀ q : ℚ, getActionType false q
      = if q ≥ 70 then .remove else if q > 0 then .modify else .none := by
    intro q; simp [getActionType]
  refine ⟨?_, ?_, ?_, ?_, ?_, ?_, by decide, by decide, by decide⟩ <;>
    (intros; first
      | (rw [ht]; split_ifs <;> first | rfl | linarith)
      | (rw [hf]; split_ifs <;> first | rfl | linarith))

/-- Witness: `c1_decision_table` applied at the percentages 85, 42 and 0. -/
theorem c1_decision_table_witness :
    getActionType true 85 = .remove ∧ getActionType false 42 = .modify ∧
      getActionType false 0 = .none :=
  ⟨(c1_decision_table 85).1 (by norm_num),
   (c1_decision_table 42).2.2.2.2.1 (by norm_num) (by norm_num),
   (c1_decision_table 0).2.2.2.2.2.1 rfl⟩

/-! ## C2 -/

/-- C2: on inputs in [0, 100] the cumulative aggregator equals
`round(min(100, previousPercent + (100 - previousPercent) * changePercent / 100))`
(the source computes `min(100, round(...))`, which agrees because the
un-rounded value never exceeds 100 there); `accumulate(40, 50) = 70`; and
`accumulate(0, c) = c` for every integer `c` in [0, 100]. -/
theorem c2_cumulative_formula :
    (∀ p c : ℚ, 0 ≤ p → p ≤ 100 → 0 ≤ c → c ≤ 100 →
        calculateCumulativeModification p c
          = (jsRound (min 100 (p + (100 - p) * c / 100)) : ℚ)) ∧
    calculateCumulativeModification 40 50 = 70 ∧
    (∀ c : ℤ, 0 ≤ c → c ≤ 100 → calculateCumulativeModification 0 (c : ℚ) = (c : ℚ)) := by
  refine ⟨?_, by decide, ?_⟩
  · intro p c hp0 hp1 hc0 hc1
    have hx : p + (100 - p) * c / 100 ≤ 100 := by
      have h1 : (100 - p) * c ≤ (100 - p) * 100 :=
        mul_le_mul_of_nonneg_left hc1 (by linarith)
      have h2 : (100 - p) * c / 100 ≤ 100 - p := by linarith
      linarith
    have h2 : jsRound (p + (100 - p) * c / 100) ≤ 100 :=
      jsRound_le 100 (by exact_mod_cast hx)
    calc calculateCumulativeModification p c
        = min 100 ((jsRound (p + (100 - p) * c / 100) : ℤ) : ℚ) := rfl
      _ = ((jsRound (p + (100 - p) * c / 100) : ℤ) : ℚ) :=
          min_eq_right (by exact_mod_cast h2)
      _ = (jsRound (min 100 (p + (100 - p) * c / 100)) : ℚ) := by
          rw [min_eq_right hx]
  · intro c hc0 hc1
    have h0 : (0 : ℚ) + (100 - 0) * c / 100 = ((c : ℤ) : ℚ) := by ring
    rw [calculateCumulativeModification, h0, jsRound_intCast, min_eq_right]
    exact_mod_cast hc1

/-- Witness: `c2_cumulative_formula` applied at (40, 50) and at c = 37. -/
theorem c2_cumulative_formula_witness :
    calculateCumulativeModification 40 50
        = (jsRound (min 100 ((40 : ℚ) + (100 - 40) * 50 / 100)) : ℚ) ∧
      calculateCumulativeModification 0 ((37 : ℤ) : ℚ) = ((37 : ℤ) : ℚ) :=
  ⟨c2_cumulative_formula.1 40 50 (by norm_num) (by norm_num) (by norm_num) (by norm_num),
   c2_cumulative_formula.2.2 37 (by norm_num) (by norm_num)⟩

/-! ## C3 -/

/-- After any sequence of in-range integer change percentages, the recorded
percentage is an integer between the start value and 100. -/
theorem recordedAfter_int (cs : List ℤ) :
    ∀ p₀ : ℤ, 0 ≤ p₀ → p₀ ≤ 100 → (∀ x ∈ cs, 0 ≤ x ∧ x ≤ 100) →
      ∃ k : ℤ, recordedAfter p₀ cs = (k : ℚ) ∧ p₀ ≤ k ∧ k ≤ 100 := by
  induction cs with
  | nil => exact fun p₀ _ h1 _ => ⟨p₀, rfl, le_refl _, h1⟩
  | cons c cs ih =>
    intro p₀ h0 h1 hall
    obtain ⟨hc0, hc1⟩ := hall c (List.mem_cons_self c cs)
    obtain ⟨k₁, hk₁, hp₁, hk100⟩ := cumulative_step p₀ c h0 h1 hc0 hc1
    have hstep : recordedAfter p₀ (c :: cs) = recordedAfter k₁ cs := by
      simp only [recordedAfter, List.foldl_cons]
      rw [hk₁]
    obtain ⟨k, hk, hk1, hk2⟩ :=
      ih k₁ (le_trans h0 hp₁) hk100 (fun x hx => hall x (List.mem_cons_of_mem c hx))
    exact ⟨k, hstep ▸ hk, le_trans hp₁ hk1, hk2⟩

/-- C3: at integer inputs in [0, 100] the aggregator's output lies between
the previous percentage and 100; consequently across any sequence of passes
the recorded cumulative percentage of a region never decreases and never
exceeds 100. -/
theorem c3_monotone_bounded :
    (∀ p c : ℤ, 0 ≤ p → p ≤ 100 → 0 ≤ c → c ≤ 100 →
        (p : ℚ) ≤ calculateCumulativeModification p c
          ∧ calculateCumulativeModification p c ≤ 100) ∧
    (∀ (p₀ : ℤ) (cs : List ℤ) (c : ℤ), 0 ≤ p₀ → p₀ ≤ 100 →
        (∀ x ∈ cs, 0 ≤ x ∧ x ≤ 100) → 0 ≤ c → c ≤ 100 →
        recordedAfter p₀ cs ≤ recordedAfter p₀ (cs ++ [c])
          ∧ (p₀ : ℚ) ≤ recordedAfter p₀ cs ∧ recordedAfter p₀ cs ≤ 100) := by
  constructor
  · intro p c hp0 hp1 hc0 hc1
    obtain ⟨k, hk, h1, h2⟩ := cumulative_step p c hp0 hp1 hc0 hc1
    rw [hk]
    exact ⟨by exact_mod_cast h1, by exact_mod_cast h2⟩
  · intro p₀ cs c h0 h1 hall hc0 hc1
    obtain ⟨k, hk, hpk, hk100⟩ := recordedAfter_int cs p₀ h0 h1 hall
    have happ : recordedAfter p₀ (cs ++ [c])
        = calculateCumulativeModification (recordedAfter p₀ cs) (c : ℚ) := by
      simp [recordedAfter, List.foldl_append]
    obtain ⟨k', hk', hkk', _⟩ := cumulative_step k c (le_trans h0 hpk) hk100 hc0 hc1
    refine ⟨?_, ?_, ?_⟩
    · rw [happ, hk, hk']
      exact_mod_cast hkk'
    · rw [hk]
      exact_mod_cast hpk
    · rw [hk]
      exact_mod_cast hk100

/-- Witness: `c3_monotone_bounded` applied at p = 40, c = 50 and at the pass
sequence 0 → [50, 10] → +30. -/
theorem c3_monotone_bounded_witness :
    ((40 : ℤ) : ℚ) ≤ calculateCumulativeModification (40 : ℤ) (50 : ℤ) ∧
      recordedAfter 0 [50, 10] ≤ recordedAfter 0 ([50, 10] ++ [30]) :=
  ⟨(c3_monotone_bounded.1 40 50 (by norm_num) (by norm_num) (by norm_num) (by norm_num)).1,
   (c3_monotone_bounded.2 0 [50, 10] 30 (by norm_num) (by norm_num)
      (by intro x hx; fin_cases hx <;> norm_num) (by norm_num) (by norm_num)).1⟩

/-! ## C4 -/

/-- Two token lists with no token in common have an empty LCS. -/
theorem lcsF_eq_nil :
    ∀ (fuel : Nat) (os ns : List Str), (∀ x ∈ os, x ∉ ns) → lcsF fuel os ns = [] := by
  intro fuel
  induction fuel with
  | zero => intro os ns _; rfl
  | succ fuel ih =>
    intro os ns h
    match os, ns with
    | [], _ => simp [lcsF]
    | _ :: _, [] => simp [lcsF]
    | a :: as, b :: bs =>
      simp only [lcsF]
      have hab : ¬a = b := fun hab =>
        h a (List.mem_cons_self a as) (hab ▸ List.mem_cons_self b bs)
      rw [if_neg hab,
        ih (a :: as) bs (fun x hx hxbs => h x hx (List.mem_cons_of_mem b hxbs)),
        ih as (b :: bs) (fun x hx => h x (List.mem_cons_of_mem a hx))]
      simp

/-- Merging runs never introduces a hunk kind that was absent. -/
theorem mergeRuns_kinds {k : HunkKind} :
    ∀ {s : List Hunk}, (∀ x ∈ s, x.1 ≠ k) → ∀ x ∈ mergeRuns s, x.1 ≠ k := by
  intro s
  induction s with
  | nil => intro _ x hx; simp [mergeRuns] at hx
  | cons hd tl ih =>
    intro h x hx
    obtain ⟨k₁, v₁⟩ := hd
    simp only [mergeRuns] at hx
    cases hm : mergeRuns tl with
    | nil =>
      rw [hm] at hx
      simp only [List.mem_singleton] at hx
      subst hx
      exact h (k₁, v₁) (List.mem_cons_self _ _)
    | cons hd' out =>
      rw [hm] at hx
      obtain ⟨k₂, v₂⟩ := hd'
      dsimp only at hx
      have htl : ∀ y ∈ tl, y.1 ≠ k := fun y hy => h y (List.mem_cons_of_mem _ hy)
      by_cases hk : k₁ = k₂
      · rw [if_pos hk] at hx
        rcases List.mem_cons.1 hx with rfl | hx'
        · exact h (k₁, v₁) (List.mem_cons_self _ _)
        · exact ih htl x (hm ▸ List.mem_cons_of_mem _ hx')
      · rw [if_neg hk] at hx
        rcases List.mem_cons.1 hx with rfl | hx'
        · exact h (k₁, v₁) (List.mem_cons_self _ _)
        · exact ih htl x (hm ▸ hx')

/-- Folding the classification over hunks with no unchanged hunk leaves the
unchanged component of the accumulator untouched. -/
theorem foldl_countStep_unchanged :
    ∀ (s : List Hunk) (acc : Nat × Nat × Nat), (∀ x ∈ s, x.1 ≠ HunkKind.unchanged) →
      (s.foldl countStep acc).2.2 = acc.2.2 := by
  intro s
  induction s with
  | nil => intro acc _; rfl
  | cons hd tl ih =>
    intro acc h
    simp only [List.foldl_cons]
    rw [ih _ (fun y hy => h y (List.mem_cons_of_mem _ hy))]
    obtain ⟨k, v⟩ := hd
    cases k with
    | added => rfl
    | removed => rfl
    | unchanged => exact absurd rfl (h (HunkKind.unchanged, v) (List.mem_cons_self _ _))

/-- A hunk list with no unchanged hunk counts zero unchanged lines. -/
theorem countHunkLines_unchanged {s : List Hunk}
    (h : ∀ x ∈ s, x.1 ≠ HunkKind.unchanged) : (countHunkLines s).2.2 = 0 :=
  foldl_countStep_unchanged s (0, 0, 0) h

/-- The clamp-and-round formula evaluates to 100 when no line is unchanged
and at least as many lines were added as removed. -/
theorem fullRewriteArith (a r : ℕ) (hr : 1 ≤ r) (hge : r ≤ a) :
    ((jsRound (min 100 (max 0
        (100 * ((a : ℚ) + (r : ℚ)) / (2 * (((0 : ℕ) : ℚ) + (r : ℚ)))))) : ℤ) : ℚ) = 100 := by
  have hr' : (0 : ℚ) < (r : ℚ) := by exact_mod_cast hr
  have hge' : (r : ℚ) ≤ (a : ℚ) := by exact_mod_cast hge
  have hden : (0 : ℚ) < 2 * (((0 : ℕ) : ℚ) + (r : ℚ)) := by
    rw [Nat.cast_zero]
    linarith
  have hx : (100 : ℚ) ≤ 100 * ((a : ℚ) + (r : ℚ)) / (2 * (((0 : ℕ) : ℚ) + (r : ℚ))) := by
    rw [le_div_iff₀ hden, Nat.cast_zero]
    nlinarith
  rw [max_eq_right (by linarith), min_eq_left hx]
  rw [show ((100 : ℚ)) = ((100 : ℤ) : ℚ) by norm_num, jsRound_intCast]

/-- Clamp-then-round equals round-then-clamp on nonnegative arguments. -/
theorem roundClamp_comm {x : ℚ} (hx : 0 ≤ x) :
    min 100 (max 0 ((jsRound x : ℤ) : ℚ)) = ((jsRound (min 100 (max 0 x)) : ℤ) : ℚ) := by
  rw [max_eq_right hx]
  have h0 : (0 : ℚ) ≤ ((jsRound x : ℤ) : ℚ) := by exact_mod_cast jsRound_nonneg hx
  rw [max_eq_right h0]
  rcases le_or_lt x 100 with h | h
  · rw [min_eq_right h,
      min_eq_right (show ((jsRound x : ℤ) : ℚ) ≤ 100 by exact_mod_cast jsRound_le 100 (by exact_mod_cast h))]
  · have h100 : jsRound ((100 : ℚ)) = 100 := by
      rw [show ((100 : ℚ)) = ((100 : ℤ) : ℚ) by norm_num, jsRound_intCast]
    rw [min_eq_left (le_of_lt h), h100,
      min_eq_left (show (100 : ℚ) ≤ ((jsRound x : ℤ) : ℚ) by
        exact_mod_cast le_jsRound 100 (by exact_mod_cast le_of_lt h))]
    norm_num

/-- On canonically unequal texts with a nonempty canonical original, the
estimator returns 100 when the hunk counts degenerate and otherwise the
claimed clamp-and-round formula over the hunk counts. -/
theorem calcModPct_cases (differ : Str → Str → List Hunk) (o c : Str)
    (hne : cleanCodeForComparison o ≠ cleanCodeForComparison c)
    (hemp : cleanCodeForComparison o ≠ []) :
    ((diffCounts differ o c).2.2 + (diffCounts differ o c).2.1 = 0 →
        calculateModificationPercentageWith differ o c = 100) ∧
    ((diffCounts differ o c).2.2 + (diffCounts differ o c).2.1 ≠ 0 →
        calculateModificationPercentageWith differ o c
          = ((jsRound (min 100 (max 0
              (100 * (((diffCounts differ o c).1 : ℚ) + ((diffCounts differ o c).2.1 : ℚ))
                / (2 * (((diffCounts differ o c).2.2 : ℚ) + ((diffCounts differ o c).2.1 : ℚ)))))) : ℤ) : ℚ)) := by
  simp only [diffCounts]
  simp only [calculateModificationPercentageWith, if_neg hne, if_neg hemp]
  set cnt := countHunkLines (differ (cleanCodeForComparison o) (cleanCodeForComparison c)) with hcnt
  constructor
  · intro h0
    rw [if_pos (by omega)]
  · intro h0
    rw [if_neg (by omega)]
    rw [roundClamp_comm (by positivity)]
    congr 2
    push_cast
    ring

/-- C4 (amended): for unequal, nonempty canonical forms the estimator equals
`round(clamp(100 * (added + removed) / (2 * (unchanged + removed)), 0, 100))`
over the differ's per-kind line counts, with 100 in the degenerate case
`unchanged + removed = 0`; the result is always in [0, 100]; and a full
rewrite — no canonical line of the old body surviving into the new one —
yields exactly 100 whenever the added line count is at least the removed
line count (in particular for a replacement of no smaller line count).  The
original claim's unconditional "full rewrite yields 100" fails when the
replacement has fewer lines (see the counterexample). -/
theorem c4_estimator_formula :
    (∀ (differ : Str → Str → List Hunk) (o c : Str),
        cleanCodeForComparison o ≠ cleanCodeForComparison c →
        cleanCodeForComparison o ≠ [] →
        ((diffCounts differ o c).2.2 + (diffCounts differ o c).2.1 = 0 →
            calculateModificationPercentageWith differ o c = 100) ∧
        ((diffCounts differ o c).2.2 + (diffCounts differ o c).2.1 ≠ 0 →
            calculateModificationPercentageWith differ o c
              = ((jsRound (min 100 (max 0
                  (100 * (((diffCounts differ o c).1 : ℚ) + ((diffCounts differ o c).2.1 : ℚ))
                    / (2 * (((diffCounts differ o c).2.2 : ℚ) + ((diffCounts differ o c).2.1 : ℚ)))))) : ℤ) : ℚ))) ∧
    (∀ (differ : Str → Str → List Hunk) (o c : Str),
        0 ≤ calculateModificationPercentageWith differ o c
          ∧ calculateModificationPercentageWith differ o c ≤ 100) ∧
    (∀ o c : Str,
        (∀ l ∈ tokenizeLines (cleanCodeForComparison o),
            l ∉ tokenizeLines (cleanCodeForComparison c)) →
        cleanCodeForComparison o ≠ cleanCodeForComparison c →
        cleanCodeForComparison o ≠ [] →
        (diffCounts diffLines o c).2.1 ≤ (diffCounts diffLines o c).1 →
        calculateModificationPercentage o c = 100) := by
  refine ⟨fun differ o c hne hemp => calcModPct_cases differ o c hne hemp, ?_, ?_⟩
  · intro differ o c
    simp only [calculateModificationPercentageWith]
    split_ifs
    · norm_num
    · norm_num
    · norm_num
    · constructor
      · exact le_min (by norm_num) (le_max_left 0 _)
      · exact min_le_left _ _
  · intro o c hdisj hne hemp hge
    have hu : (diffCounts diffLines o c).2.2 = 0 := by
      have hlcs : lcs (tokenizeLines (cleanCodeForComparison o))
          (tokenizeLines (cleanCodeForComparison c)) = [] := by
        rw [lcs]; exact lcsF_eq_nil _ _ _ hdisj
      simp only [diffCounts, diffLines, hlcs, scriptOf]
      apply countHunkLines_unchanged
      apply mergeRuns_kinds
      intro x hx
      rcases List.mem_append.1 hx with h | h <;>
        obtain ⟨y, -, rfl⟩ := List.mem_map.1 h <;> simp
    have hcases := calcModPct_cases diffLines o c hne hemp
    show calculateModificationPercentageWith diffLines o c = 100
    by_cases ht : (diffCounts diffLines o c).2.2 + (diffCounts diffLines o c).2.1 = 0
    · exact hcases.1 ht
    · rw [hcases.2 ht, hu]
      have hr : 1 ≤ (diffCounts diffLines o c).2.1 := by omega
      exact fullRewriteArith _ _ hr hge

/-- C4 counterexample: replacing the entirety of the non-empty canonical body
`"x=1\ny=2"` (two lines) with the entirely different content `"z=9"` (one
line, no line in common) yields 75, not 100 — the differ reports 2 removed
and 1 added line, and `round(clamp(100 * 3 / 4)) = 75`.  This refutes the
claim's unconditional full-rewrite clause. -/
theorem c4_full_rewrite_counterexample :
    cleanCodeForComparison (str "x=1\ny=2") = str "x=1\ny=2" ∧
    cleanCodeForComparison (str "z=9") = str "z=9" ∧
    diffLines (str "x=1\ny=2") (str "z=9")
      = [(.removed, str "x=1\ny=2"), (.added, str "z=9")] ∧
    calculateModificationPercentage (str "x=1\ny=2") (str "z=9") = 75 ∧
    calculateModificationPercentage (str "x=1\ny=2") (str "z=9") ≠ 100 := by
  refine ⟨by decide, by decide, by decide, by decide, ?_⟩
  rw [show calculateModificationPercentage (str "x=1\ny=2") (str "z=9") = 75 by decide]
  norm_num

/-- Witness: `c4_estimator_formula` applied to the modelled differ on the
rewrite `"x=1\ny=2" → "z=9"` (formula branch, value 75) and on the
equal-size full rewrite `"x=1\ny=2" → "p=3\nq=4"` (value 100). -/
theorem c4_estimator_formula_witness :
    calculateModificationPercentageWith diffLines (str "x=1\ny=2") (str "z=9")
        = ((jsRound (min 100 (max 0
            (100 * (((diffCounts diffLines (str "x=1\ny=2") (str "z=9")).1 : ℚ)
                + ((diffCounts diffLines (str "x=1\ny=2") (str "z=9")).2.1 : ℚ))
              / (2 * (((diffCounts diffLines (str "x=1\ny=2") (str "z=9")).2.2 : ℚ)
                + ((diffCounts diffLines (str "x=1\ny=2") (str "z=9")).2.1 : ℚ)))))) : ℤ) : ℚ) ∧
    calculateModificationPercentage (str "x=1\ny=2") (str "p=3\nq=4") = 100 :=
  ⟨(c4_estimator_formula.1 diffLines (str "x=1\ny=2") (str "z=9")
      (by decide) (by decide)).2 (by decide),
   c4_estimator_formula.2.2 (str "x=1\ny=2") (str "p=3\nq=4")
      (by decide) (by decide) (by decide) (by decide)⟩

/-! ## C5 -/

/-- C5 counterexample: a pass over `stripDoc` (a generated region whose body
changed fully against `stripSnaps`) plans real edits, yet even when the host
rejects them (`editSuccess = false`), the pass has already deleted the
region's `BlockSnapshot` entry — the map went from holding `abc123` to
empty, so the pass is not atomic with respect to the snapshot map on error:
entries are deleted (and, at line src/index.ts:273, created or replaced)
before `applyEdit`'s outcome is known, and nothing rolls them back. -/
theorem c5_not_atomic_counterexample :
    lookupSnap stripSnaps (str "abc123") = some (str "a") ∧
    (processDocument stripDoc stripSnaps [] false).edits ≠ [] ∧
    (processDocument stripDoc stripSnaps [] false).saved = false ∧
    (processDocument stripDoc stripSnaps [] false).snaps = [] ∧
    lookupSnap (processDocument stripDoc stripSnaps [] false).snaps (str "abc123") = none := by
  refine ⟨by decide, ?_, by decide, by decide, by decide⟩
  rw [show (processDocument stripDoc stripSnaps [] false).edits
      = [.delete 0 1, .delete 2 3] by decide]
  decide

/-- C5 (amended): the snapshot map a pass leaves behind does not depend on
whether the host accepts the planned edits — snapshot entries are created
and replaced during the scan and deleted for stripped regions during
planning, all before `applyEdit` resolves; an edit failure only skips the
follow-up `document.save()`.  So after a failed edit the next save compares
against the just-recorded bodies, not the pre-attempt baseline. -/
theorem c5_snapshot_update_unconditional :
    ∀ (text : Str) (snaps : Snaps) (fresh : List Str),
      (processDocument text snaps fresh false).snaps
          = (processDocument text snaps fresh true).snaps ∧
      (processDocument text snaps fresh false).edits
          = (processDocument text snaps fresh true).edits ∧
      (processDocument text snaps fresh false).saved = false := by
  intro text snaps fresh
  simp only [processDocument]
  split_ifs <;> simp

/-! ## C6 -/

/-- Re-storing the value a key already has leaves the map unchanged. -/
theorem insertSnap_self : ∀ {m : Snaps} {k v : Str},
    lookupSnap m k = some v → insertSnap m k v = m := by
  intro m
  induction m with
  | nil => intro k v h; simp [lookupSnap] at h
  | cons kv rest ih =>
    intro k v h
    obtain ⟨k', v'⟩ := kv
    simp only [lookupSnap] at h
    simp only [insertSnap]
    by_cases hk : k' = k
    · rw [if_pos hk] at h ⊢
      cases h
      rw [hk]
    · rw [if_neg hk] at h ⊢
      rw [ih h]

/-- A text compared with itself reports zero change. -/
theorem calcModPct_self (s : Str) : calculateModificationPercentage s s = 0 := by
  simp [calculateModificationPercentage, calculateModificationPercentageWith]

/-- Blocks already in the accumulator stay in the scan's result. -/
theorem processScanGo_acc_mem :
    ∀ (lines fresh : List Str) (stack : List StackBlock) (acc : List BlockUpd)
      (snaps : Snaps) (i : Nat) (b : BlockUpd),
      b ∈ acc → b ∈ (processScanGo fresh stack acc snaps i lines).1 := by
  intro lines
  induction lines with
  | nil => intro fresh stack acc snaps i b hb; exact hb
  | cons line rest ih =>
    intro fresh stack acc snaps i b hb
    simp only [processScanGo]
    cases hg : execGen line with
    | some gid => exact ih _ _ _ _ _ b hb
    | none =>
      cases hm : execMod line with
      | some pm => exact ih _ _ _ _ _ b hb
      | none =>
        by_cases he : testEnd line <;> simp only [he, if_true, if_false] <;>
          cases stack with
          | nil => exact ih _ _ _ _ _ b hb
          | cons top stackRest =>
            exact ih _ _ _ _ _ b (by first | exact hb | exact List.mem_append_left _ hb)

/-- Step equation: a line matching the generated pattern pushes a block. -/
theorem processScanGo_gen {line : Str} {gid : Option Str} (hg : execGen line = some gid)
    (fresh : List Str) (stack : List StackBlock) (acc : List BlockUpd) (snaps : Snaps)
    (i : Nat) (rest : List Str) :
    processScanGo fresh stack acc snaps i (line :: rest)
      = processScanGo fresh
          ({ startLine := i, id := gid.getD [], isGenerated := true,
             previousModificationPercent := 0, content := [] } :: stack)
          acc snaps (i + 1) rest := by
  simp only [processScanGo, hg]

/-- Step equation: a line matching only the modified pattern pushes a block. -/
theorem processScanGo_mod {line : Str} {p : Nat} {mid : Option Str}
    (hg : execGen line = none) (hm : execMod line = some (p, mid))
    (fresh : List Str) (stack : List StackBlock) (acc : List BlockUpd) (snaps : Snaps)
    (i : Nat) (rest : List Str) :
    processScanGo fresh stack acc snaps i (line :: rest)
      = processScanGo fresh
          ({ startLine := i, id := mid.getD [], isGenerated := false,
             previousModificationPercent := (p : ℚ), content := [] } :: stack)
          acc snaps (i + 1) rest := by
  simp only [processScanGo, hg, hm]

/-- Step equation: a non-marker line over an empty stack, or an end marker
over an empty stack, is skipped. -/
theorem processScanGo_skip {line : Str} (hg : execGen line = none) (hm : execMod line = none)
    (fresh : List Str) (acc : List BlockUpd) (snaps : Snaps) (i : Nat) (rest : List Str) :
    processScanGo fresh [] acc snaps i (line :: rest)
      = processScanGo fresh [] acc snaps (i + 1) rest := by
  by_cases he : testEnd line <;> simp [processScanGo, hg, hm, he]

/-- Step equation: a non-marker line is appended to the innermost open
block's body. -/
theorem processScanGo_accum {line : Str} (hg : execGen line = none) (hm : execMod line = none)
    (he : testEnd line = false) (fresh : List Str) (top : StackBlock)
    (stackRest : List StackBlock) (acc : List BlockUpd) (snaps : Snaps) (i : Nat)
    (rest : List Str) :
    processScanGo fresh (top :: stackRest) acc snaps i (line :: rest)
      = processScanGo fresh ({ top with content := top.content ++ line ++ ['\n'] } :: stackRest)
          acc snaps (i + 1) rest := by
  simp only [processScanGo, hg, hm, he]
  simp

/-- Step equation: an end marker pops and records the innermost open block. -/
theorem processScanGo_pop {line finalId : Str} {fresh fresh' : List Str}
    (hg : execGen line = none) (hm : execMod line = none) (he : testEnd line = true)
    (top : StackBlock)
    (hfid : (if top.id = [] then generateShortId fresh else (top.id, fresh)) = (finalId, fresh'))
    (stackRest : List StackBlock) (acc : List BlockUpd) (snaps : Snaps) (i : Nat)
    (rest : List Str) :
    processScanGo fresh (top :: stackRest) acc snaps i (line :: rest)
      = processScanGo fresh' stackRest
          (acc ++ [{ startLine := top.startLine, endLine := i, id := finalId,
                     content := top.content, isGenerated := top.isGenerated,
                     modificationPercent := snapshotPercent snaps finalId top,
                     previousModificationPercent := top.previousModificationPercent }])
          (insertSnap snaps finalId top.content) (i + 1) rest := by
  simp only [processScanGo, hg, hm, he, if_true, hfid]

/-- The idle-scan induction: if every block the scan records has a snapshot
entry equal to its current body, then the scan leaves the snapshot map
untouched, and every newly recorded block has a natural-number previous
percentage and a computed percentage of 0 when its body is empty (the
source's truthiness check skips the computation for the falsy empty
string), 0 when it is generated, and `min 100 previous` otherwise. -/
theorem processScanGo_idle :
    ∀ (lines fresh : List Str) (stack : List StackBlock) (acc : List BlockUpd)
      (snaps : Snaps) (i : Nat),
      (∀ b ∈ (processScanGo fresh stack acc snaps i lines).1,
          lookupSnap snaps b.id = some b.content) →
      (∀ s ∈ stack, ∃ n : ℕ, s.previousModificationPercent = (n : ℚ)) →
      (processScanGo fresh stack acc snaps i lines).2 = snaps ∧
      (∀ b ∈ (processScanGo fresh stack acc snaps i lines).1, b ∉ acc →
          (∃ n : ℕ, b.previousModificationPercent = (n : ℚ)) ∧
          b.modificationPercent
            = (if b.content = [] then 0
               else if b.isGenerated then 0
               else min 100 b.previousModificationPercent)) := by
  intro lines
  induction lines with
  | nil =>
    intro fresh stack acc snaps i _ _
    exact ⟨rfl, fun b hb hnb => absurd hb hnb⟩
  | cons line rest ih =>
    intro fresh stack acc snaps i h hstack
    cases hg : execGen line with
    | some gid =>
      rw [processScanGo_gen hg] at h ⊢
      refine ih _ _ _ _ _ h ?_
      intro s hs
      rcases List.mem_cons.1 hs with rfl | hs
      · exact ⟨0, by norm_num⟩
      · exact hstack s hs
    | none =>
      cases hm : execMod line with
      | some pm =>
        obtain ⟨p, mid⟩ := pm
        rw [processScanGo_mod hg hm] at h ⊢
        refine ih _ _ _ _ _ h ?_
        intro s hs
        rcases List.mem_cons.1 hs with rfl | hs
        · exact ⟨p, rfl⟩
        · exact hstack s hs
      | none =>
        cases he : testEnd line with
        | false =>
          cases stack with
          | nil =>
            rw [processScanGo_skip hg hm] at h ⊢
            exact ih _ _ _ _ _ h (by intro s hs; simp at hs)
          | cons top stackRest =>
            rw [processScanGo_accum hg hm he] at h ⊢
            refine ih _ _ _ _ _ h ?_
            intro s hs
            rcases List.mem_cons.1 hs with rfl | hs
            · exact hstack top (List.mem_cons_self _ _)
            · exact hstack s (List.mem_cons_of_mem _ hs)
        | true =>
          cases stack with
          | nil =>
            rw [processScanGo_skip hg hm] at h ⊢
            exact ih _ _ _ _ _ h (by intro s hs; simp at hs)
          | cons top stackRest =>
            obtain ⟨finalId, fresh', hfid⟩ :
                ∃ fi fr, (if top.id = [] then generateShortId fresh else (top.id, fresh))
                  = (fi, fr) := ⟨_, _, rfl⟩
            rw [processScanGo_pop hg hm he top hfid] at h ⊢
            set rec' : BlockUpd :=
              { startLine := top.startLine, endLine := i, id := finalId,
                content := top.content, isGenerated := top.isGenerated,
                modificationPercent := snapshotPercent snaps finalId top,
                previousModificationPercent := top.previousModificationPercent } with hrec
            have hmem : rec' ∈ (processScanGo fresh' stackRest (acc ++ [rec'])
                (insertSnap snaps finalId top.content) (i + 1) rest).1 :=
              processScanGo_acc_mem rest fresh' stackRest (acc ++ [rec'])
                (insertSnap snaps finalId top.content) (i + 1) rec'
                (List.mem_append_right _ (List.mem_singleton_self _))
            have hlook' : lookupSnap snaps finalId = some top.content := h rec' hmem
            have hins : insertSnap snaps finalId top.content = snaps := insertSnap_self hlook'
            obtain ⟨n, hn⟩ := hstack top (List.mem_cons_self _ _)
            have hpct : snapshotPercent snaps finalId top
                = (if top.content = [] then 0
                   else if top.isGenerated then 0
                   else min 100 top.previousModificationPercent) := by
              simp only [snapshotPercent, hlook']
              by_cases hne' : top.content = []
              · rw [if_pos hne', if_pos hne']
              · rw [if_neg hne', if_neg hne']
                cases hb : top.isGenerated with
                | true => simp [calcModPct_self]
                | false =>
                  simp only [if_false, Bool.false_eq_true]
                  rw [calcModPct_self, hn, cumulative_zero_change]
            rw [hins] at h ⊢
            have hrest := ih fresh' stackRest (acc ++ [rec']) snaps (i + 1) h
              (fun s hs => hstack s (List.mem_cons_of_mem _ hs))
            refine ⟨hrest.1, ?_⟩
            intro b hb hnb
            by_cases hbacc : b ∈ acc ++ [rec']
            · have hbrec : b = rec' := by
                rcases List.mem_append.1 hbacc with hcontra | hone
                · exact absurd hcontra hnb
                · simpa using hone
              subst hbrec
              refine ⟨⟨n, hn⟩, ?_⟩
              show snapshotPercent snaps finalId top
                  = (if top.content = [] then 0
                     else if top.isGenerated then 0
                     else min 100 top.previousModificationPercent)
              exact hpct
            · exact hrest.2 b hb hbacc

theorem mem_insertDesc {b x : BlockUpd} :
    ∀ {l : List BlockUpd}, x ∈ insertDesc b l ↔ x = b ∨ x ∈ l := by
  intro l
  induction l with
  | nil => simp [insertDesc]
  | cons y ys ih =>
    simp only [insertDesc]
    split_ifs
    · simp [List.mem_cons]
    · simp only [List.mem_cons, ih]
      tauto

theorem mem_sortByStartDesc {x : BlockUpd} :
    ∀ {l : List BlockUpd}, x ∈ sortByStartDesc l ↔ x ∈ l := by
  intro l
  induction l with
  | nil => simp [sortByStartDesc]
  | cons y ys ih =>
    have hstep : sortByStartDesc (y :: ys) = insertDesc y (sortByStartDesc ys) := rfl
    rw [hstep, mem_insertDesc, ih, List.mem_cons]

theorem getActionType_true_eq (q : ℚ) :
    getActionType true q
      = if q ≥ 70 then .remove else if q ≥ 10 then .modify else .ensure_id := by
  simp [getActionType]

theorem getActionType_false_eq (q : ℚ) :
    getActionType false q
      = if q ≥ 70 then .remove else if q > 0 then .modify else .none := by
  simp [getActionType]

/-- C6 (amended): when every recorded block's current body equals its
stored snapshot — no human edits since the last pass — the scan leaves the
snapshot map unchanged, and the computed percentages and decisions are: a
region whose snapshot-equal body is empty computes 0 (the source's
JavaScript truthiness check at src/index.ts:246 skips the computation for
the falsy empty-string snapshot), so an empty region's action is ensure-id
when Generated and no-op when Modified, even at a positive declared
percentage; a Generated region computes 0 and its action is ensure-id
(which rewrites its start line only when it lacks an id); a Modified
region with a nonempty body computes `min 100 previous` and its action is
no-op only when its declared percentage is 0 — at a declared percentage in
(0, 70) the action is retag (rewriting the start marker with the same
percentage and id, a textually idle rewrite), and at a hand-written
declared percentage ≥ 70 it is strip.  The original claim's "no-op or
ensure-id for every region" fails for Modified regions with a positive
declared percentage and nonempty body (see the counterexample). -/
theorem c6_idle_pass :
    ∀ (text : Str) (snaps : Snaps) (fresh : List Str),
      (∀ b ∈ (scanBlocks text snaps fresh).1,
          lookupSnap snaps b.id = some b.content) →
      (scanBlocks text snaps fresh).2 = snaps ∧
      ∀ p ∈ passDecisions text snaps fresh,
        (p.1.content = [] →
            p.1.modificationPercent = 0 ∧
            (p.1.isGenerated = true → p.2 = ActionType.ensure_id) ∧
            (p.1.isGenerated = false → p.2 = ActionType.none)) ∧
        (p.1.isGenerated = true →
            p.1.modificationPercent = 0 ∧ p.2 = ActionType.ensure_id) ∧
        (p.1.isGenerated = false → p.1.content ≠ [] →
            p.1.modificationPercent = min 100 p.1.previousModificationPercent ∧
            (p.1.previousModificationPercent = 0 → p.2 = ActionType.none) ∧
            (0 < p.1.previousModificationPercent → p.1.previousModificationPercent < 70 →
                p.2 = ActionType.modify) ∧
            (70 ≤ p.1.previousModificationPercent → p.2 = ActionType.remove)) := by
  intro text snaps fresh h
  have main := processScanGo_idle (splitLines text) fresh [] [] snaps 0 h
    (by intro s hs; simp at hs)
  refine ⟨main.1, ?_⟩
  intro p hp
  simp only [passDecisions, List.mem_map] at hp
  obtain ⟨b, hb, rfl⟩ := hp
  have hbmem : b ∈ (scanBlocks text snaps fresh).1 := mem_sortByStartDesc.1 hb
  obtain ⟨⟨n, hn⟩, hpct⟩ := main.2 b hbmem (by simp)
  refine ⟨?_, ?_, ?_⟩
  · intro hempty
    rw [if_pos hempty] at hpct
    refine ⟨hpct, ?_, ?_⟩
    · intro hgen
      show getActionType b.isGenerated b.modificationPercent = ActionType.ensure_id
      rw [hgen, hpct, getActionType_true_eq]
      norm_num
    · intro hgen
      show getActionType b.isGenerated b.modificationPercent = ActionType.none
      rw [hgen, hpct, getActionType_false_eq]
      norm_num
  · intro hgen
    have hpct0 : b.modificationPercent = 0 := by
      rw [hpct]
      by_cases hempty : b.content = []
      · rw [if_pos hempty]
      · rw [if_neg hempty, hgen]
        simp
    refine ⟨hpct0, ?_⟩
    show getActionType b.isGenerated b.modificationPercent = ActionType.ensure_id
    rw [hgen, hpct0, getActionType_true_eq]
    norm_num
  · intro hgen hnem
    rw [if_neg hnem, hgen] at hpct
    simp only [Bool.false_eq_true, if_false] at hpct
    refine ⟨hpct, ?_, ?_, ?_⟩
    · intro h0
      show getActionType b.isGenerated b.modificationPercent = ActionType.none
      rw [hgen, hpct, h0, getActionType_false_eq]
      norm_num
    · intro hlt0 hlt70
      show getActionType b.isGenerated b.modificationPercent = ActionType.modify
      rw [hgen, hpct,
        min_eq_right (le_trans (le_of_lt hlt70) (by norm_num : (70 : ℚ) ≤ 100)),
        getActionType_false_eq, if_neg (not_le.mpr hlt70), if_pos hlt0]
    · intro hge70
      show getActionType b.isGenerated b.modificationPercent = ActionType.remove
      rw [hgen, hpct, getActionType_false_eq,
        if_pos (le_min (by norm_num) hge70)]

/-- C6 counterexample: `idleDoc` holds one Modified(25%) region whose body
equals its stored snapshot, so its computed changePercent is 0 — yet the
decided action is `modify`, not no-op, and the pass plans a start-marker
rewrite (with identical text), contradicting the claim that an
unedited document yields only no-op or ensure-id decisions and no marker
rewrite beyond id injection. -/
theorem c6_idle_not_noop_counterexample :
    (scanBlocks idleDoc idleSnaps []).1.map BlockUpd.id = [str "abc123"] ∧
    (scanBlocks idleDoc idleSnaps []).1.map BlockUpd.content = [str "x\n"] ∧
    lookupSnap idleSnaps (str "abc123") = some (str "x\n") ∧
    (passDecisions idleDoc idleSnaps []).map Prod.snd = [ActionType.modify] ∧
    (processDocument idleDoc idleSnaps [] true).edits
      = [.replace 0 1 (str "// #region @ai_modified(25%) id:abc123\n")] :=
  ⟨by decide, by decide, by decide, by decide, by decide⟩

/-- Witness: `c6_idle_pass` applied to the unedited generated-region
document `genIdleDoc` (the pass leaves the snapshot map unchanged),
together with the empty-body case: the unedited empty Modified(25%) region
of `emptyModDoc` decides no-op. -/
theorem c6_idle_pass_witness :
    (scanBlocks genIdleDoc genIdleSnaps []).2 = genIdleSnaps ∧
    (passDecisions emptyModDoc emptyModSnaps []).map Prod.snd = [ActionType.none] :=
  ⟨(c6_idle_pass genIdleDoc genIdleSnaps [] (by decide)).1, by decide⟩

/-! ## C9 -/

theorem flatJoin_append (xs ys : List Str) :
    flatJoin (xs ++ ys) = flatJoin xs ++ flatJoin ys := by
  induction xs with
  | nil => simp [flatJoin]
  | cons l ls ih => simp [flatJoin, ih]

theorem flatJoin_cons_eq_joinLines :
    ∀ (l : Str) (ls : List Str), flatJoin (l :: ls) = joinLines (l :: ls) ++ ['\n'] := by
  intro l ls
  induction ls generalizing l with
  | nil => simp [flatJoin, joinLines]
  | cons m ms ih =>
    show l ++ ['\n'] ++ flatJoin (m :: ms) = joinLines (l :: m :: ms) ++ ['\n']
    rw [ih m, show joinLines (l :: m :: ms) = l ++ ['\n'] ++ joinLines (m :: ms) from rfl]
    simp [List.append_assoc]

theorem stripTrailingNl_concat (y : Str) : stripTrailingNl (y ++ ['\n']) = y := by
  rw [stripTrailingNl, if_pos, List.dropLast_concat]
  rw [endsWithNl, List.getLastD_concat]
  decide

theorem stripTrailingNl_flatJoin : ∀ ls : List Str,
    stripTrailingNl (flatJoin ls) = joinLines ls := by
  intro ls
  cases ls with
  | nil => decide
  | cons l ls' => rw [flatJoin_cons_eq_joinLines, stripTrailingNl_concat]

/-- Step equation for the parser: a generated start marker pushes a block. -/
theorem extractGo_gen {line : Str} {gid : Option Str} (hg : execGen line = some gid)
    (fresh : List Str) (stack acc : List BlockInfo) (i : Nat) (rest : List Str) :
    extractGo fresh stack acc i (line :: rest)
      = extractGo fresh
          ({ id := gid.getD [], content := [], isGenerated := true,
             modifiedPercent := none, startLine := i, endLine := 0 } :: stack)
          acc (i + 1) rest := by
  simp only [extractGo, hg]

/-- Step equation for the parser: a modified start marker pushes a block. -/
theorem extractGo_mod {line : Str} {p : Nat} {mid : Option Str}
    (hg : execGen line = none) (hm : execMod line = some (p, mid))
    (fresh : List Str) (stack acc : List BlockInfo) (i : Nat) (rest : List Str) :
    extractGo fresh stack acc i (line :: rest)
      = extractGo fresh
          ({ id := mid.getD [], content := [], isGenerated := false,
             modifiedPercent := some p, startLine := i, endLine := 0 } :: stack)
          acc (i + 1) rest := by
  simp only [extractGo, hg, hm]

/-- Step equation for the parser: with an empty stack, a non-start-marker
line is skipped. -/
theorem extractGo_skip {line : Str} (hg : execGen line = none) (hm : execMod line = none)
    (fresh : List Str) (acc : List BlockInfo) (i : Nat) (rest : List Str) :
    extractGo fresh [] acc i (line :: rest) = extractGo fresh [] acc (i + 1) rest := by
  by_cases he : testEnd line <;> simp [extractGo, hg, hm, he]

/-- Step equation for the parser: a plain line joins the innermost open
block's body. -/
theorem extractGo_accum {line : Str} (hg : execGen line = none) (hm : execMod line = none)
    (he : testEnd line = false) (fresh : List Str) (top : BlockInfo)
    (stack acc : List BlockInfo) (i : Nat) (rest : List Str) :
    extractGo fresh (top :: stack) acc i (line :: rest)
      = extractGo fresh ({ top with content := top.content ++ line ++ ['\n'] } :: stack)
          acc (i + 1) rest := by
  simp only [extractGo, hg, hm, he]
  simp

/-- Step equation for the parser: an end marker pops and finalizes the
innermost open block. -/
theorem extractGo_pop {line newId : Str} {fresh fresh' : List Str}
    (hg : execGen line = none) (hm : execMod line = none) (he : testEnd line = true)
    (top : BlockInfo)
    (hfid : (if top.id = [] then generateShortId fresh else (top.id, fresh)) = (newId, fresh'))
    (stack acc : List BlockInfo) (i : Nat) (rest : List Str) :
    extractGo fresh (top :: stack) acc i (line :: rest)
      = extractGo fresh' stack
          (acc ++ [{ top with content := stripTrailingNl top.content, id := newId, endLine := i }])
          (i + 1) rest := by
  simp only [extractGo, hg, hm, he, if_true, hfid]

/-- Step equation for the parser: popping a block whose marker carried an
id keeps that id and does not consume entropy. -/
theorem extractGo_pop_id {line : Str} (hg : execGen line = none) (hm : execMod line = none)
    (he : testEnd line = true) (top : BlockInfo) (hid : top.id ≠ [])
    (fresh : List Str) (stack acc : List BlockInfo) (i : Nat) (rest : List Str) :
    extractGo fresh (top :: stack) acc i (line :: rest)
      = extractGo fresh stack
          (acc ++ [{ top with content := stripTrailingNl top.content, id := top.id, endLine := i }])
          (i + 1) rest := by
  apply extractGo_pop hg hm he top
  rw [if_neg hid]

/-- Step equation for the parser: popping a block whose marker carried no id
draws the next entropy token as its id. -/
theorem extractGo_pop_fresh {line : Str} (hg : execGen line = none) (hm : execMod line = none)
    (he : testEnd line = true) (top : BlockInfo) (hid : top.id = [])
    (fresh : List Str) (stack acc : List BlockInfo) (i : Nat) (rest : List Str) :
    extractGo fresh (top :: stack) acc i (line :: rest)
      = extractGo fresh.tail stack
          (acc ++ [{ top with content := stripTrailingNl top.content, id := fresh.headD (str "000000"), endLine := i }])
          (i + 1) rest := by
  apply extractGo_pop hg hm he top
  rw [if_pos hid]
  rfl

/-- Processing a run of plain lines appends them, each with its line feed,
to the innermost open block's body. -/
theorem extractGo_plains :
    ∀ (pls : List Str), (∀ l ∈ pls, plainLine l) →
      ∀ (fresh : List Str) (top : BlockInfo) (stack acc : List BlockInfo) (i : Nat)
        (ls : List Str),
        extractGo fresh (top :: stack) acc i (pls ++ ls)
          = extractGo fresh ({ top with content := top.content ++ flatJoin pls } :: stack)
              acc (i + pls.length) ls := by
  intro pls
  induction pls with
  | nil =>
    intro _ fresh top stack acc i ls
    simp [flatJoin]
  | cons l pls ih =>
    intro h fresh top stack acc i ls
    obtain ⟨hg, hm, he⟩ := h l (List.mem_cons_self _ _)
    rw [List.cons_append, extractGo_accum hg hm he,
      ih (fun x hx => h x (List.mem_cons_of_mem _ hx))]
    rw [show (top.content ++ l ++ ['\n']) ++ flatJoin pls
        = top.content ++ flatJoin (l :: pls) by simp [flatJoin, List.append_assoc]]
    rw [show i + 1 + pls.length = i + (l :: pls).length by simp; omega]

/-- C9: parsing a generated region that encloses one nested modified region
(the spec's `@ai_modified(20%) id:abc123` example) followed by further outer
content lines yields exactly two regions: the inner one, whose body is
exactly the lines strictly between the inner markers, and the outer one,
whose body is the lines between the outer start marker and the inner start
marker together with the lines between the inner end marker and the outer
end marker — the four marker lines and the inner body excluded. -/
theorem c9_nested_regions :
    ∀ (o1 inner o2 fresh : List Str),
      (∀ l ∈ o1 ++ inner ++ o2, plainLine l) →
      extractBlocksFromLines
          ([genMarkerEx] ++ o1 ++ [modMarkerEx] ++ inner ++ [endMarkerEx] ++ o2 ++ [endMarkerEx])
          fresh
        = [{ id := str "abc123", content := joinLines inner, isGenerated := false,
             modifiedPercent := some 20, startLine := o1.length + 1,
             endLine := o1.length + inner.length + 2 },
           { id := fresh.headD (str "000000"), content := joinLines (o1 ++ o2),
             isGenerated := true, modifiedPercent := none, startLine := 0,
             endLine := o1.length + inner.length + o2.length + 3 }] := by
  intro o1 inner o2 fresh h
  have ho1 : ∀ l ∈ o1, plainLine l := fun l hl => h l (by simp [hl])
  have hin : ∀ l ∈ inner, plainLine l := fun l hl => h l (by simp [hl])
  have ho2 : ∀ l ∈ o2, plainLine l := fun l hl => h l (by simp [hl])
  have hg1 : execGen genMarkerEx = some none := by decide
  have hg2 : execGen modMarkerEx = none := by decide
  have hm2 : execMod modMarkerEx = some (20, some (str "abc123")) := by decide
  have hgE : execGen endMarkerEx = none := by decide
  have hmE : execMod endMarkerEx = none := by decide
  have heE : testEnd endMarkerEx = true := by decide
  show extractGo fresh [] [] 0
      ([genMarkerEx] ++ o1 ++ [modMarkerEx] ++ inner ++ [endMarkerEx] ++ o2 ++ [endMarkerEx]) = _
  simp only [List.append_assoc, List.cons_append, List.nil_append]
  rw [extractGo_gen hg1, extractGo_plains o1 ho1, extractGo_mod hg2 hm2,
    extractGo_plains inner hin,
    extractGo_pop_id hgE hmE heE _ (by show str "abc123" ≠ []; decide),
    extractGo_plains o2 ho2,
    extractGo_pop_fresh hgE hmE heE _ (by rfl)]
  simp only [List.nil_append, stripTrailingNl_flatJoin]
  rw [show flatJoin o1 ++ flatJoin o2 = flatJoin (o1 ++ o2) from (flatJoin_append o1 o2).symm,
    stripTrailingNl_flatJoin]
  simp only [extractGo, List.nil_append, List.singleton_append, List.cons_append,
    List.cons.injEq, BlockInfo.mk.injEq, and_true, true_and, eq_self_iff_true]
  exact ⟨⟨rfl, by omega, by omega⟩, by omega⟩

/-- Witness: `c9_nested_regions` on concrete body lines. -/
theorem c9_nested_regions_witness :
    extractBlocksFromLines
        ([genMarkerEx] ++ [str "out1"] ++ [modMarkerEx] ++ [str "in1"] ++ [endMarkerEx]
          ++ [str "out2"] ++ [endMarkerEx]) [] =
      [{ id := str "abc123", content := joinLines [str "in1"], isGenerated := false,
         modifiedPercent := some 20, startLine := 2, endLine := 4 },
       { id := ([] : List Str).headD (str "000000"), content := joinLines ([str "out1"] ++ [str "out2"]),
         isGenerated := true, modifiedPercent := none, startLine := 0, endLine := 6 }] :=
  c9_nested_regions [str "out1"] [str "in1"] [str "out2"] [] (by decide)

/-! ## C10 -/

theorem startsWithStr_self_append : ∀ (p l : Str), startsWithStr p (p ++ l) = true := by
  intro p
  induction p with
  | nil => intro l; rfl
  | cons c cs ih => intro l; simp [startsWithStr, ih]

theorem startsWithStr_mem : ∀ {p l : Str}, startsWithStr p l = true → ∀ ch ∈ p, ch ∈ l := by
  intro p
  induction p with
  | nil => intro l _ ch hch; simp at hch
  | cons c cs ih =>
    intro l hs ch hch
    cases l with
    | nil => simp [startsWithStr] at hs
    | cons d ds =>
      simp only [startsWithStr, Bool.and_eq_true, decide_eq_true_eq] at hs
      rcases List.mem_cons.1 hch with rfl | hch'
      · exact hs.1 ▸ List.mem_cons_self _ _
      · exact List.mem_cons_of_mem _ (ih hs.2 ch hch')

theorem takeWhile_append_all {p : Char → Bool} :
    ∀ {l₁ : Str} (l₂ : Str), (∀ c ∈ l₁, p c = true) →
      (l₁ ++ l₂).takeWhile p = l₁ ++ l₂.takeWhile p := by
  intro l₁
  induction l₁ with
  | nil => intro l₂ _; rfl
  | cons c cs ih =>
    intro l₂ h
    rw [List.cons_append, List.takeWhile_cons, h c (List.mem_cons_self _ _)]
    simp only [List.cons_append, if_true]
    rw [ih l₂ (fun x hx => h x (List.mem_cons_of_mem _ hx))]

theorem dropWhile_append_all {p : Char → Bool} :
    ∀ {l₁ : Str} (l₂ : Str), (∀ c ∈ l₁, p c = true) →
      (l₁ ++ l₂).dropWhile p = l₂.dropWhile p := by
  intro l₁
  induction l₁ with
  | nil => intro l₂ _; rfl
  | cons c cs ih =>
    intro l₂ h
    rw [List.cons_append, List.dropWhile_cons, h c (List.mem_cons_self _ _)]
    simp only [if_true]
    exact ih l₂ (fun x hx => h x (List.mem_cons_of_mem _ hx))

/-- Decimal printing facts for the percentages the engine writes. -/
theorem natDigits_facts : ∀ P : ℕ, P ≤ 100 →
    natDigits P ≠ [] ∧ (∀ ch ∈ natDigits P, isDigitCh ch = true)
      ∧ parseDigits (natDigits P) = P := by
  decide

theorem jsRound_natCast (n : ℕ) : jsRound ((n : ℕ) : ℚ) = (n : ℤ) := by
  rw [show (((n : ℕ) : ℚ)) = (((n : ℕ) : ℤ) : ℚ) by push_cast; rfl, jsRound_intCast]

theorem firstMatch_head_some {α : Type} {m : Str → Option α} {a : α} :
    ∀ {l : Str}, m l = some a → firstMatch m l = some a := by
  intro l
  cases l <;> intro h <;> simp [firstMatch, h]

theorem firstMatch_cons_none {α : Type} {m : Str → Option α} {c : Char} {cs : Str}
    (h : m (c :: cs) = none) : firstMatch m (c :: cs) = firstMatch m cs := by
  simp [firstMatch, h]

theorem firstMatch_ws_skip {α : Type} (m : Str → Option α)
    (hm : ∀ (c : Char) (cs : Str), ws c = true → m (c :: cs) = none) :
    ∀ (indent : Str), (∀ ch ∈ indent, ws ch = true) → ∀ core : Str,
      firstMatch m (indent ++ core) = firstMatch m core := by
  intro indent
  induction indent with
  | nil => intro _ core; rfl
  | cons c cs ih =>
    intro h core
    rw [List.cons_append, firstMatch_cons_none (hm c _ (h c (List.mem_cons_self _ _)))]
    exact ih (fun ch hch => h ch (List.mem_cons_of_mem _ hch)) core

theorem ws_cases {c : Char} (hc : ws c = true) :
    c = ' ' ∨ c = '\t' ∨ c = '\n' ∨ c = '\r' ∨ c = '\x0b' ∨ c = '\x0c' := by
  simp only [ws, Bool.or_eq_true, decide_eq_true_eq] at hc
  tauto

theorem ws_ne_slash {c : Char} (hc : ws c = true) : ('/' : Char) ≠ c := by
  rcases ws_cases hc with rfl | rfl | rfl | rfl | rfl | rfl <;> decide

theorem genAt_ws_none {c : Char} (hc : ws c = true) (cs : Str) : genAt (c :: cs) = none := by
  simp only [genAt]
  rw [if_neg]
  intro hsw
  rw [show startsWithStr (str "// #region @ai_generated") (c :: cs)
      = (decide ('/' = c) && startsWithStr (str "/ #region @ai_generated") cs) from rfl] at hsw
  simp only [Bool.and_eq_true, decide_eq_true_eq] at hsw
  exact ws_ne_slash hc hsw.1

theorem modAt_ws_none {c : Char} (hc : ws c = true) (cs : Str) : modAt (c :: cs) = none := by
  simp only [modAt]
  rw [if_neg]
  intro hsw
  rw [show startsWithStr (str "// #region @ai_modified(") (c :: cs)
      = (decide ('/' = c) && startsWithStr (str "/ #region @ai_modified(") cs) from rfl] at hsw
  simp only [Bool.and_eq_true, decide_eq_true_eq] at hsw
  exact ws_ne_slash hc hsw.1

theorem firstMatch_genAt_none : ∀ l : Str, ('t' : Char) ∉ l → firstMatch genAt l = none := by
  intro l
  induction l with
  | nil => intro _; decide
  | cons c cs ih =>
    intro h
    have hga : genAt (c :: cs) = none := by
      cases hsw : startsWithStr (str "// #region @ai_generated") (c :: cs) with
      | false => simp [genAt, hsw]
      | true => exact absurd (startsWithStr_mem hsw 't' (by decide)) h
    rw [firstMatch_cons_none hga]
    exact ih (fun hc => h (List.mem_cons_of_mem _ hc))

/-- The optional id group captures a six-hex-character id after ` id:`. -/
theorem matchIdPart_marker (X : Str) (h6 : X.length = 6)
    (hhex : ∀ ch ∈ X, hexDigit ch = true) :
    matchIdPart (str " id:" ++ X) = some X := by
  have e1 : str " id:" ++ X = ' ' :: (str "id:" ++ X) := rfl
  have h2 : (str "id:" ++ X).takeWhile ws = [] := by
    rw [show str "id:" ++ X = 'i' :: (str "d:" ++ X) from rfl, List.takeWhile_cons]
    simp [ws]
  have h3 : (' ' :: (str "id:" ++ X)).takeWhile ws = [' '] := by
    rw [List.takeWhile_cons, show ws ' ' = true from rfl, h2]
    simp
  have h4 : (' ' :: (str "id:" ++ X)).dropWhile ws = str "id:" ++ X := by
    rw [List.dropWhile_cons, show ws ' ' = true from rfl]
    simp only [if_true]
    rw [show str "id:" ++ X = 'i' :: (str "d:" ++ X) from rfl, List.dropWhile_cons]
    simp [ws]
  have htake : X.take 6 = X := by
    rw [← h6]
    exact List.take_length X
  simp only [matchIdPart, e1, h3, h4]
  rw [if_neg (by simp), if_pos (startsWithStr_self_append (str "id:") X)]
  rw [show (str "id:" ++ X).drop 3 = X from List.drop_left (str "id:") X, htake]
  rw [if_pos]
  simp only [Bool.and_eq_true, decide_eq_true_eq]
  exact ⟨h6, List.all_eq_true.mpr hhex⟩

/-- The generated pattern matches its own canonical marker with the id
captured. -/
theorem genAt_marker (X : Str) (h6 : X.length = 6)
    (hhex : ∀ ch ∈ X, hexDigit ch = true) :
    genAt (str "// #region @ai_generated id:" ++ X) = some (some X) := by
  have h1 : startsWithStr (str "// #region @ai_generated")
      (str "// #region @ai_generated id:" ++ X) = true := rfl
  have h2 : (str "// #region @ai_generated id:" ++ X).drop
      (str "// #region @ai_generated").length = str " id:" ++ X := rfl
  simp only [genAt, h1, if_true, h2]
  rw [matchIdPart_marker X h6 hhex]

/-- The modified pattern matches its own canonical marker with the
percentage digits and the id captured. -/
theorem modAt_marker (P : ℕ) (hP : P ≤ 100) (X : Str) (h6 : X.length = 6)
    (hhex : ∀ ch ∈ X, hexDigit ch = true) :
    modAt (str "// #region @ai_modified(" ++ (natDigits P ++ (str "%) id:" ++ X)))
      = some (P, some X) := by
  obtain ⟨hne, hdig, hparse⟩ := natDigits_facts P hP
  have h1 : startsWithStr (str "// #region @ai_modified(")
      (str "// #region @ai_modified(" ++ (natDigits P ++ (str "%) id:" ++ X))) = true :=
    startsWithStr_self_append _ _
  have h2 : (str "// #region @ai_modified(" ++ (natDigits P ++ (str "%) id:" ++ X))).drop
      (str "// #region @ai_modified(").length = natDigits P ++ (str "%) id:" ++ X) :=
    List.drop_left _ _
  have h3 : (natDigits P ++ (str "%) id:" ++ X)).takeWhile isDigitCh = natDigits P := by
    rw [takeWhile_append_all _ hdig,
      show str "%) id:" ++ X = '%' :: (str ") id:" ++ X) from rfl, List.takeWhile_cons]
    simp [isDigitCh]
  have h4 : (natDigits P ++ (str "%) id:" ++ X)).dropWhile isDigitCh
      = str "%) id:" ++ X := by
    rw [dropWhile_append_all _ hdig,
      show str "%) id:" ++ X = '%' :: (str ") id:" ++ X) from rfl, List.dropWhile_cons]
    simp [isDigitCh]
  have h5 : startsWithStr (str "%)") (str "%) id:" ++ X) = true := rfl
  have h6' : (str "%) id:" ++ X).drop (str "%)").length = str " id:" ++ X := rfl
  simp only [modAt, h1, if_true, h2, h3, h4, h5, h6']
  rw [if_neg hne, show (str "%) id:" ++ X).drop 2 = str " id:" ++ X from rfl,
    matchIdPart_marker X h6 hhex]
  show some (parseDigits (natDigits P), some X) = some (P, some X)
  rw [hparse]

/-- C10: for every six-character lowercase-hex id X and every integer
percent P in [0,100], the start-marker line written by the retag action (an
indented `(slash)(slash) #region @ai_modified(P%) id:X`) is matched by the
modified-marker scan with the percentage parsed back as P and the id
captured as X and is not matched by the generated-marker scan, and the line
written by ensure-id is matched by the generated-marker scan with the id
captured as X: re-parsing after a rewrite recovers the same kind,
percentage, and id. -/
theorem c10_marker_roundtrip (indent : Str) (hind : ∀ ch ∈ indent, ws ch = true)
    (P : ℕ) (hP : P ≤ 100) (X : Str) (h6 : X.length = 6)
    (hhex : ∀ ch ∈ X, hexDigit ch = true) :
    execMod (stripTrailingNl (modifiedMarkerLine indent ((P : ℕ) : ℚ) X)) = some (P, some X)
      ∧ execGen (stripTrailingNl (modifiedMarkerLine indent ((P : ℕ) : ℚ) X)) = none
      ∧ execGen (stripTrailingNl (generatedMarkerLine indent X)) = some (some X) := by
  obtain ⟨-, hdig, -⟩ := natDigits_facts P hP
  have hmv : stripTrailingNl (modifiedMarkerLine indent ((P : ℕ) : ℚ) X)
      = indent ++ (str "// #region @ai_modified(" ++ (natDigits P ++ (str "%) id:" ++ X))) := by
    rw [modifiedMarkerLine]
    rw [show (jsRound ((P : ℕ) : ℚ)).toNat = P by rw [jsRound_natCast]; exact Int.toNat_natCast P]
    rw [show indent ++ str "// #region @ai_modified(" ++ natDigits P ++ str "%) id:" ++ X ++ ['\n']
        = (indent ++ (str "// #region @ai_modified(" ++ (natDigits P ++ (str "%) id:" ++ X)))) ++ ['\n']
        by simp [List.append_assoc]]
    exact stripTrailingNl_concat _
  have hgv : stripTrailingNl (generatedMarkerLine indent X)
      = indent ++ (str "// #region @ai_generated id:" ++ X) := by
    rw [generatedMarkerLine]
    rw [show indent ++ str "// #region @ai_generated id:" ++ X ++ ['\n']
        = (indent ++ (str "// #region @ai_generated id:" ++ X)) ++ ['\n']
        by simp [List.append_assoc]]
    exact stripTrailingNl_concat _
  refine ⟨?_, ?_, ?_⟩
  · rw [hmv, execMod, firstMatch_ws_skip modAt (fun c cs hc => modAt_ws_none hc cs) indent hind]
    exact firstMatch_head_some (modAt_marker P hP X h6 hhex)
  · rw [hmv, execGen]
    apply firstMatch_genAt_none
    intro ht
    rcases List.mem_append.1 ht with h | h
    · exact absurd (hind _ h) (by decide)
    rcases List.mem_append.1 h with h | h
    · exact absurd h (by decide)
    rcases List.mem_append.1 h with h | h
    · exact absurd (hdig _ h) (by decide)
    rcases List.mem_append.1 h with h | h
    · exact absurd h (by decide)
    · exact absurd (hhex _ h) (by decide)
  · rw [hgv, execGen, firstMatch_ws_skip genAt (fun c cs hc => genAt_ws_none hc cs) indent hind]
    exact firstMatch_head_some (genAt_marker X h6 hhex)

/-- Witness for C10 at indent two spaces, P = 25, X = abc123. -/
theorem c10_marker_roundtrip_witness :
    execMod (stripTrailingNl (modifiedMarkerLine (str "  ") ((25 : ℕ) : ℚ) (str "abc123")))
        = some (25, some (str "abc123"))
      ∧ execGen (stripTrailingNl (modifiedMarkerLine (str "  ") ((25 : ℕ) : ℚ) (str "abc123"))) = none
      ∧ execGen (stripTrailingNl (generatedMarkerLine (str "  ") (str "abc123")))
        = some (some (str "abc123")) :=
  c10_marker_roundtrip (str "  ") (by decide) 25 (by decide) (str "abc123") (by decide) (by decide)

/-! ## C7 -/

/-- C7: what actually holds of id assignment.  A region whose start marker
carries a six-hex id keeps that id, uniformly in the entropy stream; but a
region whose marker lacks an id is assigned the next token of the
`crypto.randomBytes` entropy stream — not a function of the region's body. -/
theorem c7_id_assignment :
    (∀ X : Str, X.length = 6 → (∀ ch ∈ X, hexDigit ch = true) →
      ∀ body : List Str, (∀ l ∈ body, plainLine l) → ∀ fresh : List Str,
        (extractBlocksFromLines (genMarkerWithId X :: (body ++ [endMarkerEx])) fresh).map
            BlockInfo.id = [X]) ∧
    (∀ body : List Str, (∀ l ∈ body, plainLine l) → ∀ (f : Str) (fs : List Str),
        (extractBlocksFromLines (genMarkerEx :: (body ++ [endMarkerEx])) (f :: fs)).map
            BlockInfo.id = [f]) := by
  constructor
  · intro X h6 hhex body hbody fresh
    have hgX : execGen (genMarkerWithId X) = some (some X) :=
      firstMatch_head_some (genAt_marker X h6 hhex)
    simp only [extractBlocksFromLines]
    rw [extractGo_gen hgX, extractGo_plains body hbody,
      extractGo_pop_id (by decide) (by decide) (by decide) _
        (by show X ≠ []; intro hX; rw [hX] at h6; simp at h6)]
    simp [extractGo]
  · intro body hbody f fs
    have hg : execGen genMarkerEx = some none := by decide
    simp only [extractBlocksFromLines]
    rw [extractGo_gen hg, extractGo_plains body hbody,
      extractGo_pop_fresh (by decide) (by decide) (by decide) _ rfl]
    simp [extractGo]

/-- C7 counterexample: the claim's determinism clause fails.  Two runs over
the same three-line document whose generated marker lacks an id — runs that
differ only in the entropy `crypto.randomBytes` supplies — assign the block
different ids, so the assigned id is not a function of the canonicalized
body. -/
theorem c7_entropy_counterexample :
    (extractBlocksFromLines [genMarkerEx, str "x", endMarkerEx] [str "aaaaaa"]).map
        BlockInfo.id = [str "aaaaaa"]
    ∧ (extractBlocksFromLines [genMarkerEx, str "x", endMarkerEx] [str "bbbbbb"]).map
        BlockInfo.id = [str "bbbbbb"]
    ∧ str "aaaaaa" ≠ str "bbbbbb" := by
  decide

/-- Witness for C7: a marked region keeps id abc123 under the empty entropy
stream, and an unmarked region takes the stream's head c0ffee. -/
theorem c7_id_assignment_witness :
    (extractBlocksFromLines (genMarkerWithId (str "abc123") :: ([str "x"] ++ [endMarkerEx]))
        []).map BlockInfo.id = [str "abc123"]
    ∧ (extractBlocksFromLines (genMarkerEx :: ([str "x"] ++ [endMarkerEx]))
        (str "c0ffee" :: [])).map BlockInfo.id = [str "c0ffee"] :=
  ⟨c7_id_assignment.1 (str "abc123") (by decide) (by decide) [str "x"] (by decide) [],
   c7_id_assignment.2 [str "x"] (by decide) (str "c0ffee") []⟩

/-! ## C8 -/

/-- C8: what actually holds of cosmetic invariance.  When the two bodies
canonicalize to the same string the estimator returns 0 without consulting
the line differ — the result is 0 uniformly in the differ. -/
theorem c8_canonical_equal_zero (o c : Str)
    (h : cleanCodeForComparison o = cleanCodeForComparison c) :
    ∀ differ : Str → Str → List Hunk, calculateModificationPercentageWith differ o c = 0 := by
  intro differ
  simp only [calculateModificationPercentageWith]
  rw [if_pos h]

/-- C8 counterexample: the claim's comment-edit clause fails.  Adding the
single-line comment `(slash)(slash) c` on its own line between `a` and `b`
does not canonicalize equally: the per-line trim regex deletes the line
feeds around the blanked comment line, gluing `a` and `b` into `ab`, and
the estimator reports 75, not 0. -/
theorem c8_comment_line_counterexample :
    cleanCodeForComparison (str "a\nb") ≠ cleanCodeForComparison (str "a\n// c\nb")
    ∧ calculateModificationPercentage (str "a\nb") (str "a\n// c\nb") = 75 := by
  decide

/-- Witness for C8: appending an end-of-line comment leaves the canonical
form unchanged and the estimator returns 0. -/
theorem c8_canonical_equal_zero_witness :
    calculateModificationPercentageWith diffLines (str "a") (str "a // hi") = 0 :=
  c8_canonical_equal_zero (str "a") (str "a // hi") (by decide) diffLines

end SnippetTracker
